import Mathlib

/-!
Verification development for the Razure schema-to-code pipeline.

The development embeds the Rust sources shallowly:
* `src/parser/models.rs` — the enumerated-value deserializers (`Method`,
  `SchemaType`, `HttpStatus`).
* `src/parser/schema/definition.rs` — the `serde(untagged)` schema enum
  `DefinitionType` together with `DefinitionProperty` and `Definition`;
  the embedding reproduces serde's untagged decoding discipline: variants
  are tried in declaration order and the first variant that decodes wins,
  where a `#[serde(flatten)]`-captured map field receives every field not
  consumed by a named field and fails if any captured value fails to decode.
* `src/generator/generators/rust/generator.rs` and
  `src/generator/parameters.rs` — the generation pipeline.

Components of the repository that the generator calls but whose sources are
not part of the four files (the identifier sanitizer, `create_file`,
`create_lib_file`, `format_as_file_name`, `parse_specification_file`, the
`Swagger`/`Parameter` schema structs) are modelled from the specification;
each such definition carries a doc comment starting `Modelled from the
spec:`.
-/

/-! ## Definitions: the embedded program -/

/-- Generic JSON-like document tree, standing for `serde_json::Value`. -/
inductive Json where
  | null : Json
  | bool (b : Bool) : Json
  | num (n : Int) : Json
  | str (s : String) : Json
  | arr (elems : List Json) : Json
  | obj (fields : List (String × Json)) : Json
  deriving Repr

/-- Lookup of a named field in a buffered serde map (first occurrence). -/
def lookupJ (k : String) : List (String × Json) → Option Json
  | [] => none
  | (k2, v) :: t => if k2 = k then some v else lookupJ k t

/-- Remove every occurrence of a named field, as serde does when a named
field consumes a key before the flattened rest is deserialized. -/
def removeKey (k : String) (fields : List (String × Json)) : List (String × Json) :=
  fields.filter (fun e => !(e.1 == k))

mutual
/-- Computable structural size of a JSON tree, used as the decoding fuel
measure. -/
def jsize : Json → Nat
  | .null => 1
  | .bool _ => 1
  | .num _ => 1
  | .str _ => 1
  | .arr xs => 1 + jsizeList xs
  | .obj F => 1 + jsizeFields F

/-- Size of a list of JSON values. -/
def jsizeList : List Json → Nat
  | [] => 0
  | v :: t => 1 + jsize v + jsizeList t

/-- Size of a JSON field list. -/
def jsizeFields : List (String × Json) → Nat
  | [] => 0
  | (_, v) :: t => 1 + jsize v + jsizeFields t
end

/-- HTTP method names (`Method` in `models.rs`). -/
inductive Method where
  | post | get | put | delete | patch | head
  deriving Repr, DecidableEq

/-- Response status codes (`HttpStatus` in `models.rs`). -/
inductive HttpStatus where
  | ok | created | accepted | noContent | default
  deriving Repr, DecidableEq

/-- Schema "type" strings (`SchemaType` in `models.rs`). -/
inductive SchemaType where
  | object | string | number | integer | boolean | array
  deriving Repr, DecidableEq

/-- Payload of serde's `unknown_variant` error: the offending raw string
and the `expected` list passed by the code. -/
structure DeserializeError where
  raw : String
  expected : List String
  deriving Repr, DecidableEq

/-- Character-wise lowercasing of a string, standing for Rust's
`str::to_lowercase`. -/
def strToLower (s : String) : String := ⟨s.data.map Char.toLower⟩

/-- Embeds `impl Deserialize for Method` (`models.rs` lines 140-160):
lowercase the input, match the six method names, otherwise report the raw
string with the six accepted spellings. -/
def methodDeserialize (s : String) : Except DeserializeError Method :=
  if strToLower s = "post" then .ok .post
  else if strToLower s = "get" then .ok .get
  else if strToLower s = "put" then .ok .put
  else if strToLower s = "delete" then .ok .delete
  else if strToLower s = "patch" then .ok .patch
  else if strToLower s = "head" then .ok .head
  else .error ⟨s, ["post", "get", "put", "delete", "patch", "head"]⟩

/-- Embeds `impl Deserialize for SchemaType` (`models.rs` lines 162-182):
lowercase the input, match the six type names, otherwise report the raw
string with the two-element expected list `["object", "string"]` that the
code passes to `unknown_variant`. -/
def schemaTypeDeserialize (s : String) : Except DeserializeError SchemaType :=
  if strToLower s = "string" then .ok .string
  else if strToLower s = "number" then .ok .number
  else if strToLower s = "integer" then .ok .integer
  else if strToLower s = "boolean" then .ok .boolean
  else if strToLower s = "array" then .ok .array
  else if strToLower s = "object" then .ok .object
  else .error ⟨s, ["object", "string"]⟩

/-- Embeds `impl Deserialize for HttpStatus` (`models.rs` lines 201-220). -/
def httpStatusDeserialize (s : String) : Except DeserializeError HttpStatus :=
  if strToLower s = "200" then .ok .ok
  else if strToLower s = "201" then .ok .created
  else if strToLower s = "202" then .ok .accepted
  else if strToLower s = "204" then .ok .noContent
  else if strToLower s = "default" then .ok .default
  else .error ⟨s, ["200", "201", "202", "204", "default"]⟩

/-- Embeds `DefinitionPropertyType` (`definition.rs` lines 6-15), a plain
enum deserialized with `rename_all = "lowercase"` (exact-case identifiers). -/
inductive DefinitionPropertyType where
  | object | string | number | integer | boolean | array
  deriving Repr, DecidableEq

/-- Decoding of `DefinitionPropertyType` from a JSON value: serde derive
accepts exactly the lowercase variant names as strings. -/
def parseDPT : Json → Option DefinitionPropertyType
  | .str "object" => some .object
  | .str "string" => some .string
  | .str "number" => some .number
  | .str "integer" => some .integer
  | .str "boolean" => some .boolean
  | .str "array" => some .array
  | _ => none

mutual
/-- Embeds `DefinitionType` (`definition.rs` lines 17-47): a
`serde(untagged)` enum with variants in declaration order Object, Array,
String, Number, Integer, Boolean.  The Object variant carries the two
flattened maps `properties` (every field decoded as a property) and
`additional` (every field kept raw); Array has the named `items` field
plus a flattened `additional`; the remaining variants carry only a
flattened `additional`. -/
inductive DefinitionType where
  | object (properties : List (String × DefinitionProperty))
      (additional : List (String × Json)) : DefinitionType
  | array (items : DefinitionType) (additional : List (String × Json)) : DefinitionType
  | string (additional : List (String × Json)) : DefinitionType
  | number (additional : List (String × Json)) : DefinitionType
  | integer (additional : List (String × Json)) : DefinitionType
  | boolean (additional : List (String × Json)) : DefinitionType

/-- Embeds `DefinitionProperty` (`definition.rs` lines 49-66): the named
fields `description`, `pattern`, `type`, `$ref`, `readOnly`, and the
flattened nested `schema`. -/
inductive DefinitionProperty where
  | mk (schema : DefinitionType) (description : Option String)
      (pattern : Option String)
      (definition_property_type : Option DefinitionPropertyType)
      (reference : Option String) (read_only : Option Bool) : DefinitionProperty
end

/-- Decoding of an optional string field: absent or null gives `none`,
a string gives `some`, anything else is a serde type error. -/
def parseOptStrField (k : String) (F : List (String × Json)) : Option (Option String) :=
  match lookupJ k F with
  | Option.none => some none
  | some .null => some none
  | some (.str s) => some (some s)
  | some _ => none

/-- Decoding of an optional boolean field. -/
def parseOptBoolField (k : String) (F : List (String × Json)) : Option (Option Bool) :=
  match lookupJ k F with
  | Option.none => some none
  | some .null => some none
  | some (.bool b) => some (some b)
  | some _ => none

/-- Decoding of the optional `type` field of a property. -/
def parseOptDPTField (F : List (String × Json)) : Option (Option DefinitionPropertyType) :=
  match lookupJ "type" F with
  | Option.none => some none
  | some .null => some none
  | some v => match parseDPT v with
      | some t => some (some t)
      | none => none

/-- The named fields `DefinitionProperty` consumes before its flattened
`schema` receives the rest. -/
def dpKnownKeys : List String := ["description", "pattern", "type", "$ref", "readOnly"]

/-- Fields handed to the flattened `schema` of a `DefinitionProperty`. -/
def dpRest (F : List (String × Json)) : List (String × Json) :=
  F.filter (fun e => !(dpKnownKeys.contains e.1))

mutual
/-- Decoding a `DefinitionType` from a JSON value, with a fuel argument
used only as a structural termination device (the exported `parseDT` below
always supplies sufficient fuel, see `parseDT_eq`).  Every variant carries
a flattened map, so serde fails on any non-map value; on a map the
untagged decoder tries the variants in declaration order. -/
def parseDTF : Nat → Json → Option DefinitionType
  | 0, _ => none
  | n + 1, .obj F => parseDTFieldsF n F
  | _ + 1, _ => none

/-- Untagged decoding of `DefinitionType` from buffered map content: try
the Object variant (every field value must decode as a property), then the
Array variant (a decodable `items` field must be present), then the String
variant, which always succeeds on a map — so in the source the Number,
Integer and Boolean variants are unreachable. -/
def parseDTFieldsF : Nat → List (String × Json) → Option DefinitionType
  | 0, _ => none
  | n + 1, F =>
    match parseDPListF n F with
    | some props => some (.object props F)
    | none =>
      match lookupJ "items" F with
      | some itemsJ =>
        match parseDTF n itemsJ with
        | some it => some (.array it (removeKey "items" F))
        | none => some (.string F)
      | none => some (.string F)

/-- Decoding of a flattened `HashMap<String, DefinitionProperty>`: every
captured field value must decode as a property. -/
def parseDPListF : Nat → List (String × Json) → Option (List (String × DefinitionProperty))
  | 0, _ => none
  | _ + 1, [] => some []
  | n + 1, (k, v) :: t =>
    match parseDPF n v, parseDPListF n t with
    | some p, some ps => some ((k, p) :: ps)
    | _, _ => none

/-- Decoding a `DefinitionProperty` from a JSON value: a map whose named
fields decode, with the remaining fields handed to the flattened `schema`. -/
def parseDPF : Nat → Json → Option DefinitionProperty
  | 0, _ => none
  | n + 1, .obj F =>
    match parseOptStrField "description" F, parseOptStrField "pattern" F,
        parseOptDPTField F, parseOptStrField "$ref" F, parseOptBoolField "readOnly" F with
    | some d, some pat, some t, some r, some ro =>
      match parseDTFieldsF n (dpRest F) with
      | some sch => some (.mk sch d pat t r ro)
      | none => none
    | _, _, _, _, _ => none
  | _ + 1, _ => none
end

/-- Decoding a `DefinitionType` from a JSON value (exported, fuel hidden). -/
def parseDT (j : Json) : Option DefinitionType := parseDTF (3 * jsize j + 1) j

/-- Untagged decoding of `DefinitionType` from buffered map content
(exported, fuel hidden). -/
def parseDTFields (F : List (String × Json)) : Option DefinitionType :=
  parseDTFieldsF (3 * jsizeFields F + 3) F

/-- Decoding of the flattened property map (exported, fuel hidden). -/
def parseDPList (F : List (String × Json)) : Option (List (String × DefinitionProperty)) :=
  parseDPListF (3 * jsizeFields F + 2) F

/-- Decoding a `DefinitionProperty` (exported, fuel hidden). -/
def parseDP (j : Json) : Option DefinitionProperty := parseDPF (3 * jsize j + 1) j

/-- Modelled from the spec: `Reference` (`crate::parser::schema::reference`,
not among the four source files) — "a pointer by string path to another
entity ... stored as an opaque string", deserialized from the renamed
required field `$ref`. -/
structure Reference where
  path : String
  deriving Repr, DecidableEq

/-- Modelled from the spec: decoding a `Reference` requires a map with a
string-valued `$ref` field; extra fields are ignored. -/
def parseReference (j : Json) : Option Reference :=
  match j with
  | .obj F =>
    match lookupJ "$ref" F with
    | some (.str s) => some ⟨s⟩
    | _ => none
  | _ => none

/-- Decoding of an optional list-of-strings field (`required`). -/
def parseStrList : List Json → Option (List String)
  | [] => some []
  | .str s :: t => (parseStrList t).map (fun r => s :: r)
  | _ => none

/-- Decoding of the optional `required` field of a `Definition`. -/
def parseOptStrListField (k : String) (F : List (String × Json)) :
    Option (Option (List String)) :=
  match lookupJ k F with
  | Option.none => some none
  | some .null => some none
  | some (.arr xs) => (parseStrList xs).map some
  | some _ => none

/-- Decoding of a list of references (`allOf`). -/
def parseRefList : List Json → Option (List Reference)
  | [] => some []
  | j :: t =>
    match parseReference j, parseRefList t with
    | some r, some rs => some (r :: rs)
    | _, _ => none

/-- Decoding of the optional `allOf` field of a `Definition`. -/
def parseOptRefListField (k : String) (F : List (String × Json)) :
    Option (Option (List Reference)) :=
  match lookupJ k F with
  | Option.none => some none
  | some .null => some none
  | some (.arr xs) => (parseRefList xs).map some
  | some _ => none

/-- Embeds `Definition` (`definition.rs` lines 68-79): flattened `schema`,
optional `required`, `allOf` (renamed), `description`. -/
structure Definition where
  schema : DefinitionType
  required : Option (List String)
  all_of : Option (List Reference)
  description : Option String

/-- The named fields `Definition` consumes before the flattened `schema`. -/
def defKnownKeys : List String := ["required", "allOf", "description"]

/-- Fields handed to the flattened `schema` of a `Definition`. -/
def defRest (F : List (String × Json)) : List (String × Json) :=
  F.filter (fun e => !(defKnownKeys.contains e.1))

/-- Decoding of a `Definition` from a JSON value: serde derive requires a
map, decodes the named fields and hands the rest to the flattened
untagged `schema`. -/
def parseDefinition (j : Json) : Option Definition :=
  match j with
  | .obj F =>
    match parseOptStrListField "required" F, parseOptRefListField "allOf" F,
        parseOptStrField "description" F with
    | some r, some a, some d =>
      match parseDTFields (defRest F) with
      | some sch => some ⟨sch, r, a, d⟩
      | none => none
    | _, _, _ => none
  | _ => none

/-- Modelled from the spec: `PropertyType`
(`crate::parser::schema::parameter`, not among the four source files) —
the primitive/structural property type tag of a `Parameter`, over the
closed shape set object, string, number, integer, boolean, array (§3). -/
inductive PropertyType where
  | object | string | number | integer | boolean | array
  deriving Repr, DecidableEq

/-- Modelled from the spec: case-insensitive decoding of a `PropertyType`
string (§4.2: enumerated-value decoding is case-insensitive). -/
def parsePropertyType (j : Json) : Option PropertyType :=
  match j with
  | .str s =>
    if strToLower s = "object" then some .object
    else if strToLower s = "string" then some .string
    else if strToLower s = "number" then some .number
    else if strToLower s = "integer" then some .integer
    else if strToLower s = "boolean" then some .boolean
    else if strToLower s = "array" then some .array
    else none
  | _ => none

/-- Modelled from the spec: `Parameter`
(`crate::parser::schema::parameter`, not among the four source files) —
"named request parameter" with an optional primitive property type,
optional location and optional required flag (§3).  The generator only
inspects `property_type`. -/
structure Parameter where
  property_type : Option PropertyType
  location : Option String
  required : Option Bool
  deriving Repr, DecidableEq

/-- Modelled from the spec: decoding a `Parameter` from a map, reading the
optional `type`, `in` and `required` fields. -/
def parseParameter (j : Json) : Option Parameter :=
  match j with
  | .obj F =>
    match lookupJ "type" F with
    | Option.none => some ⟨none, none, none⟩
    | some .null => some ⟨none, none, none⟩
    | some tv =>
      match parsePropertyType tv with
      | some pt => some ⟨some pt, none, none⟩
      | none => none
  | _ => none

/-- Generic decoding of a name-to-value map field. -/
def parsePairs {α : Type} (parseV : Json → Option α) :
    List (String × Json) → Option (List (String × α))
  | [] => some []
  | (k, v) :: t =>
    match parseV v, parsePairs parseV t with
    | some a, some r => some ((k, a) :: r)
    | _, _ => none

/-- Modelled from the spec: the document type consumed by the generator
(`crate::parser::schema::swagger::Swagger`, not among the four source
files) — optional map of definitions and optional map of parameters (§3;
the generator reads exactly these two fields). -/
structure Swagger where
  definitions : Option (List (String × Definition))
  parameters : Option (List (String × Parameter))

/-- Decoding of an optional name-to-value map field of the document. -/
def parseOptMapField {α : Type} (k : String) (parseV : Json → Option α)
    (F : List (String × Json)) : Option (Option (List (String × α))) :=
  match lookupJ k F with
  | Option.none => some none
  | some .null => some none
  | some (.obj D) => (parsePairs parseV D).map some
  | some _ => none

/-- Modelled from the spec: decoding a document — the format marker
`swagger` "must be present and recognized" (§3), and the optional
`definitions` and `parameters` maps are decoded entry by entry; any entry
failure is a structural parse failure for the whole document (§7). -/
def parseSwagger (j : Json) : Option Swagger :=
  match j with
  | .obj F =>
    match lookupJ "swagger" F with
    | some (.str _) =>
      match parseOptMapField "definitions" parseDefinition F,
          parseOptMapField "parameters" parseParameter F with
      | some ds, some ps => some ⟨ds, ps⟩
      | _, _ => none
    | _ => none
  | _ => none

/-- Modelled from the spec: `SpecificationFile` (`crate::filesystem`, not
among the four source files) — an input document with its file name,
domain name and raw content (§6). -/
structure SpecificationFile where
  file_name : String
  domain_name : String
  content : Json

/-- Modelled from the spec: `parse_specification_file` (`crate::parser`,
not among the four source files) — deserializes a specification file's
content into a document, returning nothing on a structural parse failure
(§4.5 step 1). -/
def parse_specification_file (f : SpecificationFile) : Option Swagger :=
  parseSwagger f.content

/-- Modelled from the spec: the character set legal in a target-language
identifier (ASCII letters and digits, §4.3), expressed over code points. -/
def identChar (c : Char) : Bool :=
  (65 ≤ c.toNat && c.toNat ≤ 90) || (97 ≤ c.toNat && c.toNat ≤ 122) ||
    (48 ≤ c.toNat && c.toNat ≤ 57)

/-- Decimal digit test over code points. -/
def digitChar (c : Char) : Bool := 48 ≤ c.toNat && c.toNat ≤ 57

/-- Keep only identifier characters, uppercasing the first kept character
after each dropped separator run (word-wise upper camel casing). -/
def stripChars : Bool → List Char → List Char
  | _, [] => []
  | up, c :: t =>
    if identChar c then (if up then c.toUpper else c) :: stripChars false t
    else stripChars true t

/-- Uppercase the first character of a character list. -/
def capFirst : List Char → List Char
  | [] => []
  | c :: t => c.toUpper :: t

/-- Sanitize a raw name: camel-case the identifier characters, drop any
leading digits, and uppercase the first remaining character. -/
def sanitizeChars (l : List Char) : List Char :=
  capFirst ((stripChars true l).dropWhile digitChar)

/-- Modelled from the spec: `format_name_as_valid_struct_identifier`
(`crate::generator::string_formatter`, not among the four source files) —
the total identifier sanitizer of §4.3: strips or replaces unrecognized
characters, never fails, yields an upper-camel-case type identifier with
no leading digit. -/
def format_name_as_valid_struct_identifier (s : String) : String :=
  ⟨sanitizeChars s.data⟩

/-- Legality of an identifier character list: only identifier characters,
and no leading digit. -/
def validIdentChars (l : List Char) : Bool :=
  l.all identChar && (match l with | [] => true | c :: _ => !digitChar c)

/-- Comparison of two elements through a key function. -/
def keyLe {α K : Type} [LinearOrder K] (keyf : α → K) (a b : α) : Prop :=
  keyf a ≤ keyf b

/-- Strict comparison of two elements through a key function. -/
def keyLt {α K : Type} [LinearOrder K] (keyf : α → K) (a b : α) : Prop :=
  keyf a < keyf b

instance {α K : Type} [LinearOrder K] (keyf : α → K) : DecidableRel (keyLe keyf) :=
  fun a b => inferInstanceAs (Decidable (keyf a ≤ keyf b))

instance {α K : Type} [LinearOrder K] (keyf : α → K) : IsTotal α (keyLe keyf) :=
  ⟨fun a b => le_total (keyf a) (keyf b)⟩

instance {α K : Type} [LinearOrder K] (keyf : α → K) : IsTrans α (keyLe keyf) :=
  ⟨fun _ _ _ h1 h2 => le_trans h1 h2⟩

instance {α K : Type} [LinearOrder K] (keyf : α → K) : IsAntisymm α (keyLt keyf) :=
  ⟨fun _ _ h1 h2 => absurd h2 (lt_asymm h1)⟩

/-- Sort a list by a key function (insertion sort, stable). -/
def sortByKey {α K : Type} [LinearOrder K] (keyf : α → K) (l : List α) : List α :=
  List.insertionSort (keyLe keyf) l

/-- Sanitized-name sort key of a named declaration: primary key the
sanitized identifier, secondary key the raw name (§4.4: deterministic
ordering, sort by sanitized name). -/
def sanKey {β : Type} (e : String × β) : Lex (String × String) :=
  toLex (format_name_as_valid_struct_identifier e.1, e.1)

/-- Embeds the `RustType` impl for `PropertyType`
(`src/generator/parameters.rs` lines 12-22): the primitive mapping table. -/
def get_type_as_string : PropertyType → Option String
  | .string => some "String"
  | .number => some "f32"
  | .integer => some "i32"
  | .boolean => some "bool"
  | _ => none

/-- Embeds `create_struct_simple_type` (`src/generator/parameters.rs`
lines 24-27): a newtype wrapper around the mapped primitive, named by the
sanitized identifier. -/
def create_struct_simple_type (name : String) (struct_type : String) : String :=
  "pub struct " ++ format_name_as_valid_struct_identifier name ++ "(" ++ struct_type ++ ");"

/-- Primitive mapping for a property's nested schema shape, same table as
`get_type_as_string`. -/
def mapPrimitive : DefinitionType → Option String
  | .string _ => some "String"
  | .number _ => some "f32"
  | .integer _ => some "i32"
  | .boolean _ => some "bool"
  | _ => none

/-- Nested schema of a property. -/
def DefinitionProperty.schema : DefinitionProperty → DefinitionType
  | .mk sch _ _ _ _ _ => sch

/-- Modelled from the spec: `create_struct` (`crate::generator::rust`, not
among the four source files) — emits a struct whose fields are exactly the
Object's declared primitive-typed properties, each field's type obtained
from the primitive mapping table, fields sorted by sanitized name;
nested structural fields are not emitted (§4.4). -/
def create_struct (name : String) (props : List (String × DefinitionProperty)) : String :=
  let fieldLines := (sortByKey sanKey props).filterMap
    (fun e => (mapPrimitive e.2.schema).map
      (fun t => "pub " ++ e.1 ++ ": " ++ t ++ ","))
  "pub struct " ++ format_name_as_valid_struct_identifier name ++ " \x7b " ++
    String.intercalate " " fieldLines ++ " \x7d"

/-- Operator-visible events of one run (`println!` and `eprintln!` calls
in the generator). -/
inductive LogEvent where
  | objectParameter (name : String)
  | skippedEmpty (file_name : String)
  | writeFailure (path : String)
  deriving Repr, DecidableEq

/-- Embeds `RustGenerator::generate_definitions` (`generator.rs` lines
15-30): every definition whose schema decoded to the Object variant
yields one struct declaration keyed by its raw name; every other variant
is skipped. -/
def generate_definitions : List (String × Definition) → List (String × String)
  | [] => []
  | (name, d) :: t =>
    match d.schema with
    | .object props _ => (name, create_struct name props) :: generate_definitions t
    | _ => generate_definitions t

/-- Embeds `RustGenerator::generate_parameters` (`generator.rs` lines
32-57): string, integer and number typed parameters yield a newtype
declaration; an object-typed parameter is logged and skipped; parameters
with any other type, or with no type, are skipped silently. -/
def generate_parameters : List (String × Parameter) → List (String × String) × List LogEvent
  | [] => ([], [])
  | (name, p) :: t =>
    let r := generate_parameters t
    match p.property_type with
    | some pt =>
      match pt with
      | .string | .integer | .number =>
        match get_type_as_string pt with
        | some ts => ((name, create_struct_simple_type name ts) :: r.1, r.2)
        | none => r
      | .object => (r.1, .objectParameter name :: r.2)
      | _ => r
    | none => r

/-- Right-biased union of two declaration maps, modelling
`HashMap::extend`: an entry of the left map survives only if its key is
absent from the right map. -/
def mergeRB (l1 l2 : List (String × String)) : List (String × String) :=
  l1.filter (fun e => !(l2.any (fun e2 => e2.1 == e.1))) ++ l2

/-- The declaration map and parameter logs of one parsed document
(`generator.rs` lines 75-83): parameters are collected first, definitions
are merged in afterwards and replace parameter entries with the same
name. -/
def dataOf (sw : Swagger) : List (String × String) × List LogEvent :=
  let pr := match sw.parameters with
    | some ps => generate_parameters ps
    | none => ([], [])
  let ds := match sw.definitions with
    | some l => generate_definitions l
    | none => []
  (mergeRB pr.1 ds, pr.2)

/-- Modelled from the spec: `format_as_file_name`
(`crate::generator::rust`, not among the four source files) — sanitizes a
document or domain name into an output file name component (§4.5 step 4). -/
def format_as_file_name (s : String) : String :=
  ⟨s.data.map (fun c => if identChar c then c.toLower else '_')⟩

/-- Modelled from the spec: the file content written by `create_file`
(`crate::generator::rust`, not among the four source files) — all
declarations of the document, sorted by sanitized name (§4.4, §4.5
step 4). -/
def renderFile (data : List (String × String)) : String :=
  String.intercalate "\n" ((sortByKey sanKey data).map Prod.snd)

/-- Lexicographic byte comparison of two character lists. -/
def chListLt : List Char → List Char → Bool
  | [], [] => false
  | [], _ :: _ => true
  | _ :: _, [] => false
  | a :: as, b :: bs =>
    if a.toNat < b.toNat then true
    else if b.toNat < a.toNat then false
    else chListLt as bs

/-- Lexicographic comparison of two strings (the `Ord` used by
`BTreeMap<String, _>`). -/
def strLtB (a b : String) : Bool := chListLt a.data b.data

/-- Ordered insertion into a sorted association list, modelling
`BTreeMap::insert`: an existing entry with the same key is replaced. -/
def btreeInsert (k v : String) : List (String × String) → List (String × String)
  | [] => [(k, v)]
  | (k2, v2) :: t =>
    if strLtB k k2 then (k, v) :: (k2, v2) :: t
    else if k = k2 then (k, v) :: t
    else (k2, v2) :: btreeInsert k v t

/-- One input document as the generator loop sees it: names plus the
parse result; the order of the `definitions` and `parameters` lists
stands for the unspecified iteration order of the corresponding
`HashMap`s. -/
structure DocInput where
  file_name : String
  domain_name : String
  swagger : Option Swagger

/-- Outcome of processing one document: the written file (path and
content) if any, the registered module line (key and line) if any, and
the log events, in order. -/
structure DocResult where
  file : Option (String × String)
  reg : Option (String × String)
  logs : List LogEvent

/-- Embeds one iteration of the loop in `RustGenerator::generate`
(`generator.rs` lines 67-104): skip unparsable documents; compute the
formatted file and domain names; collect parameter then definition
declarations; skip-and-log if empty; otherwise write
`<out>/src/<domain>_<file>.rs` (success decided by the `oracle`,
standing for the filesystem); on success register the module line keyed
by the formatted file name; on failure log and continue. -/
def processDoc (oracle : String → Bool) (outSrc : String) (d : DocInput) : DocResult :=
  match d.swagger with
  | none => ⟨none, none, []⟩
  | some sw =>
    let fileF := format_as_file_name d.file_name
    let domainF := format_as_file_name d.domain_name
    let pr := dataOf sw
    if pr.1.isEmpty then ⟨none, none, pr.2 ++ [.skippedEmpty fileF]⟩
    else
      let full := domainF ++ "_" ++ fileF
      let path := outSrc ++ "/" ++ full ++ ".rs"
      if oracle path then
        ⟨some (path, renderFile pr.1), some (fileF, "pub mod " ++ full ++ ";\n"), pr.2⟩
      else ⟨none, none, pr.2 ++ [.writeFailure path]⟩

/-- Output of one run: the written files in write order, the final
manifest (the `BTreeMap` contents, in key order), and the log events. -/
structure GenOutput where
  files : List (String × String)
  manifest : List (String × String)
  logs : List LogEvent

/-- Embeds `RustGenerator::generate` (`generator.rs` lines 61-113) after
the `create_project` call: process every document in iteration order,
collect written files, fold the registered module lines into the
`BTreeMap`, and hand the map to `create_lib_file` (the manifest). -/
def generateDocs (oracle : String → Bool) (output_path : String)
    (docs : List DocInput) : GenOutput :=
  let outSrc := output_path ++ "/src"
  let results := docs.map (processDoc oracle outSrc)
  { files := results.filterMap (fun r => r.file)
  , manifest := results.foldl
      (fun m r => match r.reg with
        | some e => btreeInsert e.1 e.2 m
        | none => m) []
  , logs := (results.map (fun r => r.logs)).flatten }

/-- The full pipeline on raw specification files: parse each file, then
run the generator loop. -/
def generate (oracle : String → Bool) (output_path : String)
    (specifications : List (String × SpecificationFile)) : GenOutput :=
  generateDocs oracle output_path (specifications.map (fun e =>
    ⟨e.2.file_name, e.2.domain_name, parse_specification_file e.2⟩))

/-- Discriminator for the Array variant. -/
def DefinitionType.isArrayVariant : DefinitionType → Bool
  | .array _ _ => true
  | _ => false

/-- The end-to-end Pet example document of the spec (§8): `definitions:
{ "Pet": { type: object, properties: { "name": {type: string}, "age":
{type: integer} } } }` and no parameters. -/
def petSpecificationFile : SpecificationFile :=
  ⟨"pets", "store",
    .obj [("swagger", .str "2.0"),
          ("definitions", .obj [("Pet", .obj
            [("type", .str "object"),
             ("properties", .obj [("name", .obj [("type", .str "string")]),
                                  ("age", .obj [("type", .str "integer")])])])])]⟩

/-- The empty-definitions document of the spec (§8): `definitions: {}`
and no `parameters`. -/
def emptySpecificationFile : SpecificationFile :=
  ⟨"empty", "store", .obj [("swagger", .str "2.0"), ("definitions", .obj [])]⟩

/-- Ordering of manifest entries: strictly increasing keys. -/
def manifestLt (a b : String × String) : Prop := strLtB a.1 b.1 = true

/-- Folding module-line registrations into the `BTreeMap`. -/
def manifestFold (regs : List (String × String)) (m : List (String × String)) :
    List (String × String) :=
  regs.foldl (fun acc e => btreeInsert e.1 e.2 acc) m

/-- Well-formedness of a parsed document: the definition and parameter
maps have distinct keys (a `HashMap` invariant). -/
def wfSwagger (sw : Swagger) : Prop :=
  (match sw.definitions with
    | some ds => (ds.map Prod.fst).Nodup
    | none => True) ∧
  (match sw.parameters with
    | some ps => (ps.map Prod.fst).Nodup
    | none => True)

/-- Well-formedness of a document input. -/
def wfDoc (d : DocInput) : Prop :=
  match d.swagger with
  | some sw => wfSwagger sw
  | none => True

/-- Equality of optional association lists up to entry order. -/
def optPerm {α : Type} : Option (List α) → Option (List α) → Prop
  | none, none => True
  | some l1, some l2 => l1.Perm l2
  | _, _ => False

/-- Two parsed documents with the same content seen under different
`HashMap` iteration orders. -/
def swaggerEquiv (s1 s2 : Swagger) : Prop :=
  optPerm s1.definitions s2.definitions ∧ optPerm s1.parameters s2.parameters

/-- Two document inputs with identical names and content, up to iteration
order of the parsed maps. -/
def docEquiv (d1 d2 : DocInput) : Prop :=
  d1.file_name = d2.file_name ∧ d1.domain_name = d2.domain_name ∧
  (match d1.swagger, d2.swagger with
    | none, none => True
    | some s1, some s2 => swaggerEquiv s1 s2
    | _, _ => False)

/-- Two runs over identical input: the same documents, possibly iterated
in a different order, each with its maps iterated in a different order. -/
def runEquiv (docs1 docs2 : List DocInput) : Prop :=
  ∃ mid, docs1.Perm mid ∧ List.Forall₂ docEquiv mid docs2

/-- Per-entry declaration function of `generate_parameters`. -/
def paramDecl (e : String × Parameter) : Option (String × String) :=
  match e.2.property_type with
  | some .string => some (e.1, create_struct_simple_type e.1 "String")
  | some .integer => some (e.1, create_struct_simple_type e.1 "i32")
  | some .number => some (e.1, create_struct_simple_type e.1 "f32")
  | _ => none

/-- Per-entry declaration function of `generate_definitions`. -/
def defnDecl (e : String × Definition) : Option (String × String) :=
  match e.2.schema with
  | .object props _ => some (e.1, create_struct e.1 props)
  | _ => none

/-! ## Theorems -/

theorem jsize_pos : ∀ j : Json, 1 ≤ jsize j := by
  intro j
  cases j <;> simp [jsize]

theorem jsize_lookupJ {k : String} : ∀ {F : List (String × Json)} {v : Json},
    lookupJ k F = some v → jsize v < jsizeFields F := by
  intro F
  induction F with
  | nil => intro v h; simp [lookupJ] at h
  | cons e t ih =>
    intro v h
    obtain ⟨k2, w⟩ := e
    simp only [lookupJ] at h
    by_cases hk : k2 = k
    · simp [hk] at h
      subst h
      simp [jsizeFields]
      omega
    · simp [hk] at h
      have := ih h
      simp [jsizeFields]
      omega

theorem jsizeFields_filter_le (p : String × Json → Bool) :
    ∀ F : List (String × Json), jsizeFields (F.filter p) ≤ jsizeFields F := by
  intro F
  induction F with
  | nil => simp [jsizeFields]
  | cons e t ih =>
    obtain ⟨k2, w⟩ := e
    simp only [List.filter_cons]
    by_cases hp : p (k2, w)
    · simp [hp, jsizeFields]; omega
    · simp [hp, jsizeFields]; omega

theorem jsize_dpRest_le (F : List (String × Json)) : jsizeFields (dpRest F) ≤ jsizeFields F :=
  jsizeFields_filter_le _ F

/-- Any fuel beyond the measure yields the same decoding result: the fuel
is a pure termination device.  The four statements are proved together by
strong induction on the fuel bound. -/
theorem parse_fuel_stable : ∀ k : Nat,
    (∀ n m j, 3 * jsize j < k → 3 * jsize j < n → 3 * jsize j < m →
      parseDTF n j = parseDTF m j) ∧
    (∀ n m F, 3 * jsizeFields F + 2 < k → 3 * jsizeFields F + 2 < n →
      3 * jsizeFields F + 2 < m → parseDTFieldsF n F = parseDTFieldsF m F) ∧
    (∀ n m F, 3 * jsizeFields F + 1 < k → 3 * jsizeFields F + 1 < n →
      3 * jsizeFields F + 1 < m → parseDPListF n F = parseDPListF m F) ∧
    (∀ n m j, 3 * jsize j < k → 3 * jsize j < n → 3 * jsize j < m →
      parseDPF n j = parseDPF m j) := by
  intro k
  induction k with
  | zero => exact ⟨by omega, by omega, by omega, by omega⟩
  | succ k ih =>
    obtain ⟨ih1, ih2, ih3, ih4⟩ := ih
    refine ⟨?_, ?_, ?_, ?_⟩
    · intro n m j hk hn hm
      match j with
      | .null | .bool _ | .num _ | .str _ | .arr _ =>
        obtain ⟨n2, rfl⟩ : ∃ n2, n = n2 + 1 := ⟨n - 1, by omega⟩
        obtain ⟨m2, rfl⟩ : ∃ m2, m = m2 + 1 := ⟨m - 1, by omega⟩
        rfl
      | .obj F =>
        obtain ⟨n2, rfl⟩ : ∃ n2, n = n2 + 1 := ⟨n - 1, by omega⟩
        obtain ⟨m2, rfl⟩ : ∃ m2, m = m2 + 1 := ⟨m - 1, by omega⟩
        show parseDTFieldsF n2 F = parseDTFieldsF m2 F
        have hsz : jsize (Json.obj F) = 1 + jsizeFields F := by simp [jsize]
        exact ih2 n2 m2 F (by omega) (by omega) (by omega)
    · intro n m F hk hn hm
      obtain ⟨n2, rfl⟩ : ∃ n2, n = n2 + 1 := ⟨n - 1, by omega⟩
      obtain ⟨m2, rfl⟩ : ∃ m2, m = m2 + 1 := ⟨m - 1, by omega⟩
      show parseDTFieldsF (n2 + 1) F = parseDTFieldsF (m2 + 1) F
      have hlist : parseDPListF n2 F = parseDPListF m2 F :=
        ih3 n2 m2 F (by omega) (by omega) (by omega)
      simp only [parseDTFieldsF, hlist]
      cases parseDPListF m2 F with
      | some props => rfl
      | none =>
        cases hx : lookupJ "items" F with
        | none => rfl
        | some itemsJ =>
          have hsz := jsize_lookupJ hx
          have hitems : parseDTF n2 itemsJ = parseDTF m2 itemsJ :=
            ih1 n2 m2 itemsJ (by omega) (by omega) (by omega)
          simp only [hitems]
    · intro n m F hk hn hm
      obtain ⟨n2, rfl⟩ : ∃ n2, n = n2 + 1 := ⟨n - 1, by omega⟩
      obtain ⟨m2, rfl⟩ : ∃ m2, m = m2 + 1 := ⟨m - 1, by omega⟩
      match F with
      | [] => rfl
      | (k2, v) :: t =>
        have hsz : jsizeFields ((k2, v) :: t) = 1 + jsize v + jsizeFields t := by
          simp [jsizeFields]
        have hv : parseDPF n2 v = parseDPF m2 v :=
          ih4 n2 m2 v (by omega) (by omega) (by omega)
        have ht : parseDPListF n2 t = parseDPListF m2 t :=
          ih3 n2 m2 t (by omega) (by omega) (by omega)
        show (match parseDPF n2 v, parseDPListF n2 t with
          | some p, some ps => some ((k2, p) :: ps)
          | _, _ => none) = (match parseDPF m2 v, parseDPListF m2 t with
          | some p, some ps => some ((k2, p) :: ps)
          | _, _ => none)
        rw [hv, ht]
    · intro n m j hk hn hm
      match j with
      | .null | .bool _ | .num _ | .str _ | .arr _ =>
        obtain ⟨n2, rfl⟩ : ∃ n2, n = n2 + 1 := ⟨n - 1, by omega⟩
        obtain ⟨m2, rfl⟩ : ∃ m2, m = m2 + 1 := ⟨m - 1, by omega⟩
        rfl
      | .obj F =>
        obtain ⟨n2, rfl⟩ : ∃ n2, n = n2 + 1 := ⟨n - 1, by omega⟩
        obtain ⟨m2, rfl⟩ : ∃ m2, m = m2 + 1 := ⟨m - 1, by omega⟩
        have hsz : jsize (Json.obj F) = 1 + jsizeFields F := by simp [jsize]
        have hrest := jsize_dpRest_le F
        have hfields : parseDTFieldsF n2 (dpRest F) = parseDTFieldsF m2 (dpRest F) :=
          ih2 n2 m2 (dpRest F) (by omega) (by omega) (by omega)
        show parseDPF (n2 + 1) (.obj F) = parseDPF (m2 + 1) (.obj F)
        simp only [parseDPF, hfields]

/-- Unfolding equation of `parseDT`: serde fails on non-map values and
delegates to the untagged field decoder on maps. -/
theorem parseDT_eq (j : Json) :
    parseDT j = match j with | .obj F => parseDTFields F | _ => none := by
  match j with
  | .null | .bool _ | .num _ | .str _ | .arr _ => rfl
  | .obj F =>
    show parseDTFieldsF (3 * jsize (Json.obj F)) F = parseDTFieldsF (3 * jsizeFields F + 3) F
    have hsz : jsize (Json.obj F) = 1 + jsizeFields F := by simp [jsize]
    exact (parse_fuel_stable (3 * jsizeFields F + 4)).2.1 _ _ F (by omega) (by omega) (by omega)

/-- Unfolding equation of `parseDTFields`: the untagged decoder tries
Object, then Array, then String; String succeeds on every map. -/
theorem parseDTFields_eq (F : List (String × Json)) :
    parseDTFields F =
      match parseDPList F with
      | some props => some (.object props F)
      | none =>
        match lookupJ "items" F with
        | some itemsJ =>
          match parseDT itemsJ with
          | some it => some (.array it (removeKey "items" F))
          | none => some (.string F)
        | none => some (.string F) := by
  show parseDTFieldsF (3 * jsizeFields F + 2 + 1) F = _
  simp only [parseDTFieldsF]
  rw [show parseDPListF (3 * jsizeFields F + 2) F = parseDPList F from rfl]
  cases parseDPList F with
  | some props => rfl
  | none =>
    cases hx : lookupJ "items" F with
    | none => rfl
    | some itemsJ =>
      have hsz := jsize_lookupJ hx
      have hitems : parseDTF (3 * jsizeFields F + 2) itemsJ = parseDT itemsJ :=
        (parse_fuel_stable (3 * jsizeFields F + 3)).1 _ _ itemsJ (by omega) (by omega) (by omega)
      show (match parseDTF (3 * jsizeFields F + 2) itemsJ with
        | some it => some (DefinitionType.array it (removeKey "items" F))
        | none => some (DefinitionType.string F)) = (match parseDT itemsJ with
        | some it => some (DefinitionType.array it (removeKey "items" F))
        | none => some (DefinitionType.string F))
      rw [hitems]

/-- Unfolding equation of `parseDPList` on a cons cell. -/
theorem parseDPList_cons (k : String) (v : Json) (t : List (String × Json)) :
    parseDPList ((k, v) :: t) =
      match parseDP v, parseDPList t with
      | some p, some ps => some ((k, p) :: ps)
      | _, _ => none := by
  show parseDPListF (3 * jsizeFields ((k, v) :: t) + 1 + 1) ((k, v) :: t) = _
  simp only [parseDPListF]
  have hsz : jsizeFields ((k, v) :: t) = 1 + jsize v + jsizeFields t := by simp [jsizeFields]
  have hv : parseDPF (3 * jsizeFields ((k, v) :: t) + 1) v = parseDP v :=
    (parse_fuel_stable (3 * jsizeFields ((k, v) :: t) + 2)).2.2.2 _ _ v
      (by omega) (by omega) (by omega)
  have ht : parseDPListF (3 * jsizeFields ((k, v) :: t) + 1) t = parseDPList t :=
    (parse_fuel_stable (3 * jsizeFields ((k, v) :: t) + 2)).2.2.1 _ _ t
      (by omega) (by omega) (by omega)
  rw [hv, ht]

/-- Unfolding equation of `parseDP`: the named property fields must
decode and the flattened rest feeds the nested schema. -/
theorem parseDP_eq (j : Json) :
    parseDP j =
      match j with
      | .obj F =>
        match parseOptStrField "description" F, parseOptStrField "pattern" F,
            parseOptDPTField F, parseOptStrField "$ref" F, parseOptBoolField "readOnly" F with
        | some d, some pat, some t, some r, some ro =>
          match parseDTFields (dpRest F) with
          | some sch => some (.mk sch d pat t r ro)
          | none => none
        | _, _, _, _, _ => none
      | _ => none := by
  match j with
  | .null | .bool _ | .num _ | .str _ | .arr _ => rfl
  | .obj F =>
    show parseDPF (3 * jsize (Json.obj F) + 1) (.obj F) = _
    simp only [parseDPF]
    have hsz : jsize (Json.obj F) = 1 + jsizeFields F := by simp [jsize]
    have hrest := jsize_dpRest_le F
    have hfields : parseDTFieldsF (3 * jsize (Json.obj F)) (dpRest F) =
        parseDTFields (dpRest F) :=
      (parse_fuel_stable (3 * jsizeFields F + 5)).2.1 _ _ (dpRest F)
        (by omega) (by omega) (by omega)
    rw [hfields]

theorem char_toNat_ofNat {n : Nat} (h : n < 55296) : (Char.ofNat n).toNat = n := by
  have hv : n.isValidChar := Or.inl h
  rw [Char.ofNat, dif_pos hv]
  simp [Char.ofNatAux, Char.toNat, UInt32.toNat]

theorem toUpper_eq_of_lower {c : Char} (h97 : 97 ≤ c.toNat) (h122 : c.toNat ≤ 122) :
    c.toUpper = Char.ofNat (c.toNat - 32) := by
  rw [Char.toUpper]
  exact if_pos ⟨h97, h122⟩

theorem toUpper_eq_of_not_lower {c : Char} (h : ¬(97 ≤ c.toNat ∧ c.toNat ≤ 122)) :
    c.toUpper = c := by
  rw [Char.toUpper]
  exact if_neg h

theorem toNat_toUpper_of_lower {c : Char} (h97 : 97 ≤ c.toNat) (h122 : c.toNat ≤ 122) :
    c.toUpper.toNat = c.toNat - 32 := by
  rw [toUpper_eq_of_lower h97 h122]
  exact char_toNat_ofNat (by omega)

theorem identChar_toUpper {c : Char} (h : identChar c = true) :
    identChar c.toUpper = true := by
  by_cases hl : 97 ≤ c.toNat ∧ c.toNat ≤ 122
  · have hup := toNat_toUpper_of_lower hl.1 hl.2
    unfold identChar at h ⊢
    rw [hup]
    simp only [Bool.or_eq_true, Bool.and_eq_true, decide_eq_true_eq] at h ⊢
    omega
  · rw [toUpper_eq_of_not_lower hl]
    exact h

theorem digitChar_toUpper (c : Char) : digitChar c.toUpper = digitChar c := by
  by_cases hl : 97 ≤ c.toNat ∧ c.toNat ≤ 122
  · have hup := toNat_toUpper_of_lower hl.1 hl.2
    have hL : digitChar c.toUpper = false := by
      simp [digitChar, hup]
      omega
    have hR : digitChar c = false := by
      simp [digitChar]
      omega
    rw [hL, hR]
  · rw [toUpper_eq_of_not_lower hl]

theorem toUpper_idem (c : Char) : c.toUpper.toUpper = c.toUpper := by
  by_cases hl : 97 ≤ c.toNat ∧ c.toNat ≤ 122
  · have h2 := toNat_toUpper_of_lower hl.1 hl.2
    apply toUpper_eq_of_not_lower
    omega
  · rw [toUpper_eq_of_not_lower hl, toUpper_eq_of_not_lower hl]

theorem stripChars_all_ident : ∀ (b : Bool) (l : List Char),
    ∀ c ∈ stripChars b l, identChar c = true := by
  intro b l
  induction l generalizing b with
  | nil => intro c hc; simp [stripChars] at hc
  | cons a t ih =>
    intro c hc
    simp only [stripChars] at hc
    by_cases ha : identChar a
    · simp [ha] at hc
      rcases hc with hc | hc
      · subst hc
        by_cases hb : b = true
        · rw [if_pos hb]
          exact identChar_toUpper ha
        · rw [if_neg hb]
          exact ha
      · exact ih false c hc
    · simp [ha] at hc
      exact ih true c hc

theorem stripChars_false_of_all_ident : ∀ l : List Char,
    (∀ c ∈ l, identChar c = true) → stripChars false l = l := by
  intro l
  induction l with
  | nil => intro _; rfl
  | cons a t ih =>
    intro h
    have ha : identChar a = true := h a (by simp)
    simp only [stripChars, ha, if_true, if_neg (by simp : ¬(false = true))]
    rw [ih (fun c hc => h c (by simp [hc]))]

theorem stripChars_true_of_all_ident : ∀ l : List Char,
    (∀ c ∈ l, identChar c = true) → stripChars true l = capFirst l := by
  intro l
  cases l with
  | nil => intro _; rfl
  | cons a t =>
    intro h
    have ha : identChar a = true := h a (by simp)
    simp only [stripChars, ha, if_true, capFirst]
    rw [stripChars_false_of_all_ident t (fun c hc => h c (by simp [hc]))]

theorem dropWhile_head_false (p : Char → Bool) :
    ∀ (l : List Char) c t, l.dropWhile p = c :: t → p c = false := by
  intro l
  induction l with
  | nil => intro c t h; simp [List.dropWhile] at h
  | cons a l2 ih =>
    intro c t h
    rw [List.dropWhile_cons] at h
    by_cases ha : p a
    · simp [ha] at h
      exact ih c t h
    · simp [ha] at h
      rw [← h.1]
      simp [ha]

theorem mem_dropWhile (p : Char → Bool) (l : List Char) :
    ∀ c ∈ l.dropWhile p, c ∈ l :=
  fun _ hc => (List.dropWhile_sublist p).mem hc

theorem sanitizeChars_all_ident (l : List Char) :
    ∀ c ∈ sanitizeChars l, identChar c = true := by
  intro c hc
  unfold sanitizeChars at hc
  cases hd : (stripChars true l).dropWhile digitChar with
  | nil => rw [hd] at hc; simp [capFirst] at hc
  | cons a t =>
    rw [hd] at hc
    simp only [capFirst] at hc
    have hmem : ∀ x ∈ a :: t, identChar x = true := by
      intro x hx
      apply stripChars_all_ident true l
      apply mem_dropWhile digitChar
      rw [hd]
      exact hx
    rcases List.mem_cons.mp hc with hc2 | hc2
    · subst hc2
      exact identChar_toUpper (hmem a (by simp))
    · exact hmem c (by simp [hc2])

theorem sanitizeChars_valid (l : List Char) :
    validIdentChars (sanitizeChars l) = true := by
  unfold validIdentChars
  rw [Bool.and_eq_true]
  refine ⟨?_, ?_⟩
  · rw [List.all_eq_true]
    exact sanitizeChars_all_ident l
  · unfold sanitizeChars
    cases hd : (stripChars true l).dropWhile digitChar with
    | nil => simp [capFirst]
    | cons a t =>
      simp only [capFirst]
      have ha := dropWhile_head_false digitChar _ a t hd
      rw [digitChar_toUpper a, ha]
      rfl

theorem capFirst_capFirst (l : List Char) : capFirst (capFirst l) = capFirst l := by
  cases l with
  | nil => rfl
  | cons a t => simp [capFirst, toUpper_idem]

theorem sanitizeChars_idem (l : List Char) :
    sanitizeChars (sanitizeChars l) = sanitizeChars l := by
  cases hd : (stripChars true l).dropWhile digitChar with
  | nil =>
    unfold sanitizeChars
    rw [hd]
    rfl
  | cons a t =>
    have hr : sanitizeChars l = a.toUpper :: t := by
      unfold sanitizeChars
      rw [hd]
      rfl
    have hident : ∀ c ∈ a.toUpper :: t, identChar c = true := by
      rw [← hr]
      exact sanitizeChars_all_ident l
    have hstrip : stripChars true (a.toUpper :: t) = a.toUpper.toUpper :: t := by
      rw [stripChars_true_of_all_ident _ hident]
      rfl
    have hnd : digitChar a.toUpper = false := by
      rw [digitChar_toUpper a]
      exact dropWhile_head_false digitChar _ a t hd
    rw [hr]
    unfold sanitizeChars
    rw [hstrip, toUpper_idem]
    rw [List.dropWhile_cons_of_neg (by simp [hnd])]
    simp [capFirst, toUpper_idem]

theorem sortByKey_perm {α K : Type} [LinearOrder K] (keyf : α → K) (l : List α) :
    (sortByKey keyf l).Perm l :=
  List.perm_insertionSort _ l

theorem pairwise_keyLt_of_sorted {α K : Type} [LinearOrder K] (keyf : α → K)
    {l : List α} (hs : l.Pairwise (keyLe keyf)) (hnd : (l.map keyf).Nodup) :
    l.Pairwise (keyLt keyf) := by
  have h2 : l.Pairwise (fun a b => keyf a ≠ keyf b) := List.pairwise_map.mp hnd
  exact (hs.and h2).imp (fun h => lt_of_le_of_ne h.1 h.2)

/-- Two permuted lists with distinct keys sort to the same list. -/
theorem sortByKey_eq_of_perm {α K : Type} [LinearOrder K] (keyf : α → K)
    {l1 l2 : List α} (hp : l1.Perm l2) (hnd : (l1.map keyf).Nodup) :
    sortByKey keyf l1 = sortByKey keyf l2 := by
  have hperm : (sortByKey keyf l1).Perm (sortByKey keyf l2) :=
    (List.perm_insertionSort _ l1).trans (hp.trans (List.perm_insertionSort _ l2).symm)
  have hs1 : (sortByKey keyf l1).Pairwise (keyLe keyf) :=
    List.sorted_insertionSort (keyLe keyf) l1
  have hs2 : (sortByKey keyf l2).Pairwise (keyLe keyf) :=
    List.sorted_insertionSort (keyLe keyf) l2
  have hnd1 : ((sortByKey keyf l1).map keyf).Nodup :=
    (((sortByKey_perm keyf l1).map keyf).nodup_iff).mpr hnd
  have hnd2 : ((sortByKey keyf l2).map keyf).Nodup :=
    (hperm.map keyf).nodup_iff.mp hnd1
  exact List.eq_of_perm_of_sorted hperm
    (pairwise_keyLt_of_sorted keyf hs1 hnd1)
    (pairwise_keyLt_of_sorted keyf hs2 hnd2)

/-- C1 counterexample: the claim says a node with an `items` field
resolves to Array, first in precedence.  On the code, the node
`{"items": {}}` decodes every field value as a property, so the untagged
decoder's first variant (Object) matches and the node resolves to the
Object variant, not Array. -/
theorem c1_counterexample :
    parseDTFields [("items", Json.obj [])] =
      some (.object [("items", .mk (.object [] []) none none none none none)]
        [("items", Json.obj [])]) ∧
    (parseDTFields [("items", Json.obj [])]).map DefinitionType.isArrayVariant =
      some false :=
  ⟨rfl, rfl⟩

/-- C1 (amended): the parser tries the untagged variants in declaration
order — Object, Array, String, Number, Integer, Boolean — and the first
variant that decodes wins: a map whose every field value decodes as a
property resolves to Object even when an `items` field is present;
otherwise a map whose `items` field decodes as a schema resolves to
Array; every other map (including one whose `type` field names a
primitive) resolves to String; the Number, Integer and Boolean variants
are never produced. -/
theorem c1_untagged_resolution :
    (∀ F : List (String × Json),
      (∀ props, parseDPList F = some props → parseDTFields F = some (.object props F)) ∧
      (parseDPList F = none → ∀ itemsJ it, lookupJ "items" F = some itemsJ →
        parseDT itemsJ = some it →
        parseDTFields F = some (.array it (removeKey "items" F))) ∧
      (parseDPList F = none → lookupJ "items" F = none →
        parseDTFields F = some (.string F)) ∧
      (parseDPList F = none → ∀ itemsJ, lookupJ "items" F = some itemsJ →
        parseDT itemsJ = none → parseDTFields F = some (.string F))) ∧
    (∀ (j : Json) (add : List (String × Json)),
      parseDT j ≠ some (.number add) ∧ parseDT j ≠ some (.integer add) ∧
      parseDT j ≠ some (.boolean add)) := by
  constructor
  · intro F
    refine ⟨?_, ?_, ?_, ?_⟩
    · intro props h
      rw [parseDTFields_eq, h]
    · intro h itemsJ it hx hit
      rw [parseDTFields_eq, h, hx]
      show (match parseDT itemsJ with
        | some it => some (DefinitionType.array it (removeKey "items" F))
        | none => some (DefinitionType.string F)) = _
      rw [hit]
    · intro h hx
      rw [parseDTFields_eq, h, hx]
    · intro h itemsJ hx hit
      rw [parseDTFields_eq, h, hx]
      show (match parseDT itemsJ with
        | some it => some (DefinitionType.array it (removeKey "items" F))
        | none => some (DefinitionType.string F)) = _
      rw [hit]
  · intro j add
    match j with
    | .null | .bool _ | .num _ | .str _ | .arr _ =>
      refine ⟨?_, ?_, ?_⟩ <;> (intro h; exact Option.noConfusion h)
    | .obj F =>
      have he : parseDT (Json.obj F) = parseDTFields F := parseDT_eq (Json.obj F)
      rw [he, parseDTFields_eq]
      cases parseDPList F with
      | some props => exact ⟨by simp, by simp, by simp⟩
      | none =>
        cases lookupJ "items" F with
        | none => exact ⟨by simp, by simp, by simp⟩
        | some itemsJ =>
          cases hit : parseDT itemsJ with
          | some it => refine ⟨?_, ?_, ?_⟩ <;> simp [hit]
          | none => refine ⟨?_, ?_, ?_⟩ <;> simp [hit]

/-- C1 witness: a node with only a primitive `type` field has no decodable
property values and no `items`, so it resolves to the String variant. -/
theorem c1_witness :
    parseDPList [("type", Json.str "integer")] = none ∧
    lookupJ "items" [("type", Json.str "integer")] = none ∧
    parseDTFields [("type", Json.str "integer")] =
      some (.string [("type", Json.str "integer")]) :=
  ⟨rfl, rfl, ((c1_untagged_resolution.1 [("type", Json.str "integer")]).2.2.1 rfl rfl)⟩

/-- C2: on the code, the Pet document of the spec's end-to-end example
produces no output file and no manifest line — the definition node
`{type: object, properties: ...}` decodes to the String variant of the
untagged schema enum (the scalar `type` value cannot decode as a
property, `items` is absent, and the String variant accepts any map), so
`generate_definitions` emits nothing and the document is skipped as
empty.  The empty-definitions half of the example does hold.  The claim
describes the evident intent (one file with a `Pet` struct and one
manifest line); the code's untagged decoding makes the Object arm
unreachable for such nodes. -/
theorem c2_pet_example_behavior :
    (generate (fun _ => true) "out" [("pets", petSpecificationFile)]).files = [] ∧
    (generate (fun _ => true) "out" [("pets", petSpecificationFile)]).manifest = [] ∧
    (generate (fun _ => true) "out" [("pets", petSpecificationFile)]).logs =
      [.skippedEmpty "pets"] ∧
    (generate (fun _ => true) "out" [("empty", emptySpecificationFile)]).files = [] ∧
    (generate (fun _ => true) "out" [("empty", emptySpecificationFile)]).manifest = [] :=
  ⟨rfl, rfl, rfl, rfl, rfl⟩

/-- C4 counterexample: the claim says every failed decode names the
closed set of accepted values.  The schema-type decoder accepts
`"array"` (among six spellings) but its error payload lists only
`["object", "string"]`. -/
theorem c4_counterexample :
    schemaTypeDeserialize "tuple" = .error ⟨"tuple", ["object", "string"]⟩ ∧
    schemaTypeDeserialize "array" = .ok .array ∧
    "array" ∉ ["object", "string"] :=
  ⟨rfl, rfl, by decide⟩

/-- C4 (amended): all three decoders are case-insensitive (inputs with
the same lowercasing decode to the same value), and every unrecognized
input fails with an error naming the offending raw string and a fixed
expected list; for methods and status codes that list is the full
accepted set, but for schema types it is only `["object", "string"]`. -/
theorem c4_enum_decoding :
    (∀ s t : String, strToLower s = strToLower t →
      (methodDeserialize s).toOption = (methodDeserialize t).toOption ∧
      (schemaTypeDeserialize s).toOption = (schemaTypeDeserialize t).toOption ∧
      (httpStatusDeserialize s).toOption = (httpStatusDeserialize t).toOption) ∧
    (∀ s : String, strToLower s ∉ ["post", "get", "put", "delete", "patch", "head"] →
      methodDeserialize s = .error ⟨s, ["post", "get", "put", "delete", "patch", "head"]⟩) ∧
    (∀ s : String,
      strToLower s ∉ ["string", "number", "integer", "boolean", "array", "object"] →
      schemaTypeDeserialize s = .error ⟨s, ["object", "string"]⟩) ∧
    (∀ s : String, strToLower s ∉ ["200", "201", "202", "204", "default"] →
      httpStatusDeserialize s = .error ⟨s, ["200", "201", "202", "204", "default"]⟩) := by
  refine ⟨?_, ?_, ?_, ?_⟩
  · intro s t h
    refine ⟨?_, ?_, ?_⟩
    · unfold methodDeserialize
      rw [h]
      repeat' split
      all_goals rfl
    · unfold schemaTypeDeserialize
      rw [h]
      repeat' split
      all_goals rfl
    · unfold httpStatusDeserialize
      rw [h]
      repeat' split
      all_goals rfl
  · intro s h
    simp only [List.mem_cons, List.not_mem_nil, or_false] at h
    push_neg at h
    unfold methodDeserialize
    rw [if_neg h.1, if_neg h.2.1, if_neg h.2.2.1, if_neg h.2.2.2.1,
      if_neg h.2.2.2.2.1, if_neg h.2.2.2.2.2]
  · intro s h
    simp only [List.mem_cons, List.not_mem_nil, or_false] at h
    push_neg at h
    unfold schemaTypeDeserialize
    rw [if_neg h.1, if_neg h.2.1, if_neg h.2.2.1, if_neg h.2.2.2.1,
      if_neg h.2.2.2.2.1, if_neg h.2.2.2.2.2]
  · intro s h
    simp only [List.mem_cons, List.not_mem_nil, or_false] at h
    push_neg at h
    unfold httpStatusDeserialize
    rw [if_neg h.1, if_neg h.2.1, if_neg h.2.2.1, if_neg h.2.2.2.1, if_neg h.2.2.2.2]

/-- C4 witness: `"GET"` and `"get"` decode to the same method, and the
unrecognized method `"FETCH"` fails naming its raw spelling and the six
accepted method names. -/
theorem c4_witness :
    (methodDeserialize "GET").toOption = (methodDeserialize "get").toOption ∧
    methodDeserialize "FETCH" =
      .error ⟨"FETCH", ["post", "get", "put", "delete", "patch", "head"]⟩ :=
  ⟨(c4_enum_decoding.1 "GET" "get" (by decide)).1,
   c4_enum_decoding.2.1 "FETCH" (by decide)⟩

/-- C8: the identifier sanitizer is total (a Lean function on all
strings), idempotent, and always yields a string whose characters are all
legal identifier characters with no leading digit. -/
theorem c8_sanitizer_total_idempotent :
    ∀ s : String,
      format_name_as_valid_struct_identifier (format_name_as_valid_struct_identifier s) =
        format_name_as_valid_struct_identifier s ∧
      validIdentChars (format_name_as_valid_struct_identifier s).data = true := by
  intro s
  constructor
  · show (⟨sanitizeChars (sanitizeChars s.data)⟩ : String) = ⟨sanitizeChars s.data⟩
    rw [sanitizeChars_idem]
  · exact sanitizeChars_valid s.data

/-- C6: processing one parameter of the loop in `generate_parameters` —
a string, integer or number typed parameter contributes exactly one
newtype declaration under its name; an object-typed parameter contributes
no declaration and one logged skip; a parameter with no property type
contributes nothing, with no log. -/
theorem c6_parameter_eligibility :
    ∀ (name : String) (p : Parameter) (rest : List (String × Parameter)),
      (p.property_type = some .string →
        generate_parameters ((name, p) :: rest) =
          ((name, create_struct_simple_type name "String") :: (generate_parameters rest).1,
            (generate_parameters rest).2)) ∧
      (p.property_type = some .integer →
        generate_parameters ((name, p) :: rest) =
          ((name, create_struct_simple_type name "i32") :: (generate_parameters rest).1,
            (generate_parameters rest).2)) ∧
      (p.property_type = some .number →
        generate_parameters ((name, p) :: rest) =
          ((name, create_struct_simple_type name "f32") :: (generate_parameters rest).1,
            (generate_parameters rest).2)) ∧
      (p.property_type = some .object →
        generate_parameters ((name, p) :: rest) =
          ((generate_parameters rest).1,
            .objectParameter name :: (generate_parameters rest).2)) ∧
      (p.property_type = none →
        generate_parameters ((name, p) :: rest) = generate_parameters rest) := by
  intro name p rest
  refine ⟨?_, ?_, ?_, ?_, ?_⟩ <;> intro h <;> simp [generate_parameters, h, get_type_as_string]

/-- C6 witness: one parameter of each kind, processed concretely. -/
theorem c6_witness :
    generate_parameters [("userId", (⟨some .string, none, none⟩ : Parameter))] =
      ([("userId", create_struct_simple_type "userId" "String")], []) ∧
    generate_parameters [("body", (⟨some .object, none, none⟩ : Parameter))] =
      ([], [.objectParameter "body"]) ∧
    generate_parameters [("blank", (⟨none, none, none⟩ : Parameter))] = ([], []) :=
  ⟨(c6_parameter_eligibility "userId" ⟨some .string, none, none⟩ []).1 rfl,
   (c6_parameter_eligibility "body" ⟨some .object, none, none⟩ []).2.2.2.1 rfl,
   (c6_parameter_eligibility "blank" ⟨none, none, none⟩ []).2.2.2.2 rfl⟩

/-- C7: a parsed document with an empty declaration map writes no file,
registers no module line, and logs the skip after the parameter logs. -/
theorem c7_skip_empty :
    ∀ (oracle : String → Bool) (outSrc : String) (d : DocInput) (sw : Swagger),
      d.swagger = some sw → (dataOf sw).1 = [] →
      processDoc oracle outSrc d =
        ⟨none, none, (dataOf sw).2 ++ [.skippedEmpty (format_as_file_name d.file_name)]⟩ := by
  intro oracle outSrc d sw h hemp
  unfold processDoc
  rw [h]
  simp [hemp]

/-- C7 witness: a document whose swagger has no definitions and no
parameters is skipped with a log and no registration. -/
theorem c7_witness :
    processDoc (fun _ => true) "out/src" ⟨"pets", "store", some ⟨none, none⟩⟩ =
      ⟨none, none, [.skippedEmpty "pets"]⟩ :=
  c7_skip_empty (fun _ => true) "out/src" ⟨"pets", "store", some ⟨none, none⟩⟩
    ⟨none, none⟩ rfl rfl

/-! ## String and btree helper lemmas -/
theorem str_append_cancel_left {c a b : String} (h : c ++ a = c ++ b) : a = b := by
  have hd : c.data ++ a.data = c.data ++ b.data := by
    rw [← String.data_append, ← String.data_append, h]
  have := List.append_cancel_left hd
  cases a
  cases b
  simp at this
  rw [this]

theorem str_append_cancel_right {c a b : String} (h : a ++ c = b ++ c) : a = b := by
  have hd : a.data ++ c.data = b.data ++ c.data := by
    rw [← String.data_append, ← String.data_append, h]
  have := List.append_cancel_right hd
  cases a
  cases b
  simp at this
  rw [this]

theorem chListLt_irrefl : ∀ l : List Char, chListLt l l = false := by
  intro l
  induction l with
  | nil => rfl
  | cons a t ih =>
    simp only [chListLt]
    rw [if_neg (by omega), if_neg (by omega)]
    exact ih

theorem strLtB_irrefl (s : String) : strLtB s s = false := chListLt_irrefl s.data

/-- A parsed document with a nonempty declaration map and a successful
write produces its file and registers its module line. -/
theorem processDoc_writes (oracle : String → Bool) (outSrc : String) (d : DocInput)
    (sw : Swagger) (h : d.swagger = some sw) (hne : (dataOf sw).1 ≠ [])
    (hor : oracle (outSrc ++ "/" ++ (format_as_file_name d.domain_name ++ "_" ++
      format_as_file_name d.file_name) ++ ".rs") = true) :
    processDoc oracle outSrc d =
      ⟨some (outSrc ++ "/" ++ (format_as_file_name d.domain_name ++ "_" ++
          format_as_file_name d.file_name) ++ ".rs", renderFile (dataOf sw).1),
        some (format_as_file_name d.file_name,
          "pub mod " ++ (format_as_file_name d.domain_name ++ "_" ++
            format_as_file_name d.file_name) ++ ";\n"),
        (dataOf sw).2⟩ := by
  unfold processDoc
  rw [h]
  have hne2 : (dataOf sw).1.isEmpty = false := by
    cases hx : (dataOf sw).1 with
    | nil => exact absurd hx hne
    | cons a t => rfl
  simp only [hne2, Bool.false_eq_true, if_false, hor, if_true]

/-- A parsed document with a nonempty declaration map and a failed write
produces nothing, registers nothing, and logs the failure. -/
theorem processDoc_write_fails (oracle : String → Bool) (outSrc : String) (d : DocInput)
    (sw : Swagger) (h : d.swagger = some sw) (hne : (dataOf sw).1 ≠ [])
    (hor : oracle (outSrc ++ "/" ++ (format_as_file_name d.domain_name ++ "_" ++
      format_as_file_name d.file_name) ++ ".rs") = false) :
    processDoc oracle outSrc d =
      ⟨none, none, (dataOf sw).2 ++ [.writeFailure (outSrc ++ "/" ++
        (format_as_file_name d.domain_name ++ "_" ++
          format_as_file_name d.file_name) ++ ".rs")]⟩ := by
  unfold processDoc
  rw [h]
  have hne2 : (dataOf sw).1.isEmpty = false := by
    cases hx : (dataOf sw).1 with
    | nil => exact absurd hx hne
    | cons a t => rfl
  simp only [hne2, Bool.false_eq_true, if_false, hor, if_true]

/-- C9: two documents in one run with the same formatted file name,
different formatted domain names, nonempty declaration maps and
successful writes produce two distinct output files, but the manifest map
is keyed by the file name alone, so the second registration replaces the
first and the manifest holds only the later document's module line. -/
theorem c9_duplicate_file_name_shadows :
    ∀ (oracle : String → Bool) (outPath : String) (d1 d2 : DocInput) (sw1 sw2 : Swagger),
      d1.swagger = some sw1 → d2.swagger = some sw2 →
      (dataOf sw1).1 ≠ [] → (dataOf sw2).1 ≠ [] →
      format_as_file_name d1.file_name = format_as_file_name d2.file_name →
      format_as_file_name d1.domain_name ≠ format_as_file_name d2.domain_name →
      oracle (outPath ++ "/src" ++ "/" ++ (format_as_file_name d1.domain_name ++ "_" ++
        format_as_file_name d1.file_name) ++ ".rs") = true →
      oracle (outPath ++ "/src" ++ "/" ++ (format_as_file_name d2.domain_name ++ "_" ++
        format_as_file_name d2.file_name) ++ ".rs") = true →
      (generateDocs oracle outPath [d1, d2]).files.map Prod.fst =
        [outPath ++ "/src" ++ "/" ++ (format_as_file_name d1.domain_name ++ "_" ++
          format_as_file_name d1.file_name) ++ ".rs",
         outPath ++ "/src" ++ "/" ++ (format_as_file_name d2.domain_name ++ "_" ++
          format_as_file_name d2.file_name) ++ ".rs"] ∧
      outPath ++ "/src" ++ "/" ++ (format_as_file_name d1.domain_name ++ "_" ++
        format_as_file_name d1.file_name) ++ ".rs" ≠
        outPath ++ "/src" ++ "/" ++ (format_as_file_name d2.domain_name ++ "_" ++
          format_as_file_name d2.file_name) ++ ".rs" ∧
      (generateDocs oracle outPath [d1, d2]).manifest =
        [(format_as_file_name d1.file_name,
          "pub mod " ++ (format_as_file_name d2.domain_name ++ "_" ++
            format_as_file_name d2.file_name) ++ ";\n")] := by
  intro oracle outPath d1 d2 sw1 sw2 h1 h2 hne1 hne2 hfile hdom hor1 hor2
  have hp1 := processDoc_writes oracle (outPath ++ "/src") d1 sw1 h1 hne1 hor1
  have hp2 := processDoc_writes oracle (outPath ++ "/src") d2 sw2 h2 hne2 hor2
  refine ⟨?_, ?_, ?_⟩
  · show ((([d1, d2].map (processDoc oracle (outPath ++ "/src"))).filterMap
      (fun r => r.file)).map Prod.fst) = _
    rw [List.map_cons, List.map_cons, List.map_nil, hp1, hp2]
    rfl
  · intro hcontra
    apply hdom
    have e1 := str_append_cancel_left (str_append_cancel_right hcontra)
    rw [hfile] at e1
    exact str_append_cancel_right (str_append_cancel_right e1)
  · show (([d1, d2].map (processDoc oracle (outPath ++ "/src"))).foldl
      (fun m r => match r.reg with
        | some e => btreeInsert e.1 e.2 m
        | none => m) []) = _
    rw [List.map_cons, List.map_cons, List.map_nil, hp1, hp2]
    show btreeInsert (format_as_file_name d2.file_name) _
      (btreeInsert (format_as_file_name d1.file_name) _ []) = _
    rw [← hfile]
    show (if strLtB (format_as_file_name d1.file_name) (format_as_file_name d1.file_name)
      then _ else _) = _
    rw [strLtB_irrefl, if_neg (by simp), if_pos rfl]

/-- C9 witness: two documents named `f` under domains `d1` and `d2`, each
with one eligible string parameter. -/
theorem c9_witness :
    (generateDocs (fun _ => true) "out"
      [⟨"f", "d1", some ⟨none, some [("p1", ⟨some .string, none, none⟩)]⟩⟩,
       ⟨"f", "d2", some ⟨none, some [("p1", ⟨some .string, none, none⟩)]⟩⟩]).files.map
        Prod.fst = ["out/src/d1_f.rs", "out/src/d2_f.rs"] ∧
    (generateDocs (fun _ => true) "out"
      [⟨"f", "d1", some ⟨none, some [("p1", ⟨some .string, none, none⟩)]⟩⟩,
       ⟨"f", "d2", some ⟨none, some [("p1", ⟨some .string, none, none⟩)]⟩⟩]).manifest =
      [("f", "pub mod d2_f;\n")] := by
  have h := c9_duplicate_file_name_shadows (fun _ => true) "out"
    ⟨"f", "d1", some ⟨none, some [("p1", ⟨some .string, none, none⟩)]⟩⟩
    ⟨"f", "d2", some ⟨none, some [("p1", ⟨some .string, none, none⟩)]⟩⟩
    ⟨none, some [("p1", ⟨some .string, none, none⟩)]⟩
    ⟨none, some [("p1", ⟨some .string, none, none⟩)]⟩
    rfl rfl (by decide) (by decide) rfl (by decide) rfl rfl
  exact ⟨h.1, h.2.2⟩

/-! ## Claim C10 -/
theorem gd_mem {ds : List (String × Definition)} {name : String} {d : Definition}
    {props : List (String × DefinitionProperty)} {add : List (String × Json)}
    (hmem : (name, d) ∈ ds) (hobj : d.schema = .object props add) :
    (name, create_struct name props) ∈ generate_definitions ds := by
  induction ds with
  | nil => simp at hmem
  | cons e t ih =>
    rcases List.mem_cons.mp hmem with he | ht
    · obtain ⟨n2, d2⟩ := e
      have hn : n2 = name := (Prod.mk.injEq _ _ _ _ ▸ he.symm).1
      have hd : d2 = d := (Prod.mk.injEq _ _ _ _ ▸ he.symm).2
      subst hn hd
      rw [show generate_definitions ((n2, d2) :: t) =
        match d2.schema with
        | .object props2 _ => (n2, create_struct n2 props2) :: generate_definitions t
        | _ => generate_definitions t from rfl]
      rw [hobj]
      exact List.mem_cons_self _ _
    · obtain ⟨n2, d2⟩ := e
      have hsub := ih ht
      rw [show generate_definitions ((n2, d2) :: t) =
        match d2.schema with
        | .object props2 _ => (n2, create_struct n2 props2) :: generate_definitions t
        | _ => generate_definitions t from rfl]
      cases d2.schema with
      | object p2 a2 => exact List.mem_cons_of_mem _ hsub
      | array i a2 => exact hsub
      | string a2 => exact hsub
      | number a2 => exact hsub
      | integer a2 => exact hsub
      | boolean a2 => exact hsub

theorem gd_keys_sub {ds : List (String × Definition)} :
    ∀ e ∈ generate_definitions ds, e.1 ∈ ds.map Prod.fst := by
  induction ds with
  | nil => intro e he; simp [generate_definitions] at he
  | cons hd t ih =>
    intro e he
    obtain ⟨n2, d2⟩ := hd
    rw [show generate_definitions ((n2, d2) :: t) =
      match d2.schema with
      | .object props2 _ => (n2, create_struct n2 props2) :: generate_definitions t
      | _ => generate_definitions t from rfl] at he
    cases hs : d2.schema with
    | object p2 a2 =>
      rw [hs] at he
      rcases List.mem_cons.mp he with he2 | he2
      · subst he2; simp
      · exact List.mem_cons_of_mem _ (ih e he2)
    | array i a2 => rw [hs] at he; exact List.mem_cons_of_mem _ (ih e he)
    | string a2 => rw [hs] at he; exact List.mem_cons_of_mem _ (ih e he)
    | number a2 => rw [hs] at he; exact List.mem_cons_of_mem _ (ih e he)
    | integer a2 => rw [hs] at he; exact List.mem_cons_of_mem _ (ih e he)
    | boolean a2 => rw [hs] at he; exact List.mem_cons_of_mem _ (ih e he)

theorem filter_key_gd {ds : List (String × Definition)} {name : String} {d : Definition}
    {props : List (String × DefinitionProperty)} {add : List (String × Json)}
    (hnd : (ds.map Prod.fst).Nodup) (hmem : (name, d) ∈ ds)
    (hobj : d.schema = .object props add) :
    (generate_definitions ds).filter (fun e => e.1 == name) =
      [(name, create_struct name props)] := by
  induction ds with
  | nil => simp at hmem
  | cons hd t ih =>
    obtain ⟨n2, d2⟩ := hd
    have hnd2 : (t.map Prod.fst).Nodup := (List.nodup_cons.mp hnd).2
    have hnotin : n2 ∉ t.map Prod.fst := (List.nodup_cons.mp hnd).1
    rcases List.mem_cons.mp hmem with he | ht
    · have hn : n2 = name := (Prod.mk.injEq _ _ _ _ ▸ he.symm).1
      have hd2 : d2 = d := (Prod.mk.injEq _ _ _ _ ▸ he.symm).2
      subst hn hd2
      rw [show generate_definitions ((n2, d2) :: t) =
        match d2.schema with
        | .object props2 _ => (n2, create_struct n2 props2) :: generate_definitions t
        | _ => generate_definitions t from rfl, hobj]
      rw [List.filter_cons_of_pos (by simp)]
      have htail : (generate_definitions t).filter (fun e => e.1 == n2) = [] := by
        rw [List.filter_eq_nil_iff]
        intro e he2
        have := gd_keys_sub e he2
        simp only [beq_iff_eq]
        intro hcontra
        exact hnotin (hcontra ▸ this)
      rw [htail]
    · have hne : n2 ≠ name := by
        intro hcontra
        subst hcontra
        exact hnotin (List.mem_map.mpr ⟨(n2, d), ht, rfl⟩)
      rw [show generate_definitions ((n2, d2) :: t) =
        match d2.schema with
        | .object props2 _ => (n2, create_struct n2 props2) :: generate_definitions t
        | _ => generate_definitions t from rfl]
      cases hs : d2.schema with
      | object p2 a2 =>
        rw [List.filter_cons_of_neg (by simp [hne])]
        exact ih hnd2 ht
      | array i a2 => exact ih hnd2 ht
      | string a2 => exact ih hnd2 ht
      | number a2 => exact ih hnd2 ht
      | integer a2 => exact ih hnd2 ht
      | boolean a2 => exact ih hnd2 ht

theorem gp_key_mem {ps : List (String × Parameter)} {name : String} {p : Parameter}
    (hmem : (name, p) ∈ ps)
    (helig : p.property_type = some .string ∨ p.property_type = some .integer ∨
      p.property_type = some .number) :
    name ∈ (generate_parameters ps).1.map Prod.fst := by
  induction ps with
  | nil => simp at hmem
  | cons hd t ih =>
    obtain ⟨n2, p2⟩ := hd
    rcases List.mem_cons.mp hmem with he | ht
    · have hn : n2 = name := (Prod.mk.injEq _ _ _ _ ▸ he.symm).1
      have hp : p2 = p := (Prod.mk.injEq _ _ _ _ ▸ he.symm).2
      subst hn hp
      rcases helig with h | h | h <;>
        simp [generate_parameters, h, get_type_as_string]
    · have hsub := ih ht
      simp only [generate_parameters]
      cases hpt : p2.property_type with
      | none => exact hsub
      | some pt =>
        cases pt with
        | object => exact hsub
        | string => simp only [get_type_as_string, List.map_cons]; exact List.mem_cons_of_mem _ hsub
        | integer => simp only [get_type_as_string, List.map_cons]; exact List.mem_cons_of_mem _ hsub
        | number => simp only [get_type_as_string, List.map_cons]; exact List.mem_cons_of_mem _ hsub
        | boolean => exact hsub
        | array => exact hsub

/-- C10: within one document the parameter declarations are collected
first and the definition declarations are merged in afterwards; when an
eligible parameter and an eligible definition share a name, the
parameter does produce a declaration, but the merged map holds exactly
one declaration under that name — the definition's struct. -/
theorem c10_definition_replaces_parameter :
    ∀ (sw : Swagger) (ps : List (String × Parameter)) (ds : List (String × Definition))
      (name : String) (p : Parameter) (d : Definition)
      (props : List (String × DefinitionProperty)) (add : List (String × Json)),
      sw.parameters = some ps → sw.definitions = some ds →
      (name, p) ∈ ps →
      (p.property_type = some .string ∨ p.property_type = some .integer ∨
        p.property_type = some .number) →
      (name, d) ∈ ds → d.schema = .object props add →
      (ds.map Prod.fst).Nodup →
      name ∈ (generate_parameters ps).1.map Prod.fst ∧
      (dataOf sw).1.filter (fun e => e.1 == name) = [(name, create_struct name props)] := by
  intro sw ps ds name p d props add hps hds hpmem helig hdmem hobj hnd
  refine ⟨gp_key_mem hpmem helig, ?_⟩
  unfold dataOf
  rw [hps, hds]
  show (mergeRB (generate_parameters ps).1 (generate_definitions ds)).filter
    (fun e => e.1 == name) = _
  unfold mergeRB
  rw [List.filter_append]
  have hdsmem : (name, create_struct name props) ∈ generate_definitions ds :=
    gd_mem hdmem hobj
  have hleft : ((generate_parameters ps).1.filter
      (fun e => !((generate_definitions ds).any (fun e2 => e2.1 == e.1)))).filter
      (fun e => e.1 == name) = [] := by
    rw [List.filter_eq_nil_iff]
    intro e he
    simp only [beq_iff_eq]
    intro hkey
    have he2 := List.mem_filter.mp he
    have hany : (generate_definitions ds).any (fun e2 => e2.1 == e.1) = true := by
      rw [List.any_eq_true]
      exact ⟨(name, create_struct name props), hdsmem, by simp [hkey]⟩
    have hpred := he2.2
    rw [hany] at hpred
    simp at hpred
  rw [hleft, filter_key_gd hnd hdmem hobj]
  rfl

/-- C10 witness: a string parameter and an object definition both named
`X`; the merged data holds only the definition's struct under `X`. -/
theorem c10_witness :
    "X" ∈ (generate_parameters [("X", (⟨some .string, none, none⟩ : Parameter))]).1.map
      Prod.fst ∧
    (dataOf ⟨some [("X", (⟨DefinitionType.object [] [], none, none, none⟩ : Definition))],
      some [("X", (⟨some .string, none, none⟩ : Parameter))]⟩).1.filter
      (fun e => e.1 == "X") = [("X", create_struct "X" [])] :=
  c10_definition_replaces_parameter
    ⟨some [("X", ⟨DefinitionType.object [] [], none, none, none⟩)],
      some [("X", ⟨some .string, none, none⟩)]⟩
    [("X", ⟨some .string, none, none⟩)]
    [("X", ⟨DefinitionType.object [] [], none, none, none⟩)]
    "X" ⟨some .string, none, none⟩ ⟨DefinitionType.object [] [], none, none, none⟩ [] []
    rfl rfl (List.mem_singleton.mpr rfl) (Or.inl rfl)
    (List.mem_singleton.mpr rfl) rfl (by simp)

/-! ## BTreeMap order lemmas -/
theorem char_eq_of_toNat_eq {a b : Char} (h : a.toNat = b.toNat) : a = b := by
  have ha := Char.ofNat_toNat a
  have hb := Char.ofNat_toNat b
  rw [← ha, ← hb, h]

theorem chListLt_asymm : ∀ {a b : List Char},
    chListLt a b = true → chListLt b a = false := by
  intro a
  induction a with
  | nil =>
    intro b h
    cases b with
    | nil => exact absurd h (by simp [chListLt])
    | cons y ys => rfl
  | cons x xs ih =>
    intro b h
    cases b with
    | nil => exact absurd h (by simp [chListLt])
    | cons y ys =>
      simp only [chListLt] at h ⊢
      by_cases h1 : x.toNat < y.toNat
      · rw [if_neg (by omega), if_pos h1]
      · rw [if_neg h1] at h
        by_cases h2 : y.toNat < x.toNat
        · rw [if_pos h2] at h
          cases h
        · rw [if_neg h2] at h
          rw [if_neg (by omega), if_neg (by omega)]
          exact ih h

theorem chListLt_trans : ∀ {a b c : List Char},
    chListLt a b = true → chListLt b c = true → chListLt a c = true := by
  intro a
  induction a with
  | nil =>
    intro b c h1 h2
    cases b with
    | nil => exact absurd h1 (by simp [chListLt])
    | cons y ys =>
      cases c with
      | nil => exact absurd h2 (by simp [chListLt])
      | cons z zs => rfl
  | cons x xs ih =>
    intro b c h1 h2
    cases b with
    | nil => exact absurd h1 (by simp [chListLt])
    | cons y ys =>
      cases c with
      | nil => exact absurd h2 (by simp [chListLt])
      | cons z zs =>
        simp only [chListLt] at h1 h2 ⊢
        by_cases hxy : x.toNat < y.toNat
        · by_cases hyz : y.toNat < z.toNat
          · rw [if_pos (by omega)]
          · rw [if_neg hyz] at h2
            by_cases hzy : z.toNat < y.toNat
            · rw [if_pos hzy] at h2
              cases h2
            · rw [if_pos (by omega)]
        · rw [if_neg hxy] at h1
          by_cases hyx : y.toNat < x.toNat
          · rw [if_pos hyx] at h1
            cases h1
          · rw [if_neg hyx] at h1
            by_cases hyz : y.toNat < z.toNat
            · rw [if_pos (by omega)]
            · rw [if_neg hyz] at h2
              by_cases hzy : z.toNat < y.toNat
              · rw [if_pos hzy] at h2
                cases h2
              · rw [if_neg hzy] at h2
                rw [if_neg (by omega), if_neg (by omega)]
                exact ih h1 h2

theorem chListLt_connex : ∀ {a b : List Char},
    chListLt a b = false → chListLt b a = false → a = b := by
  intro a
  induction a with
  | nil =>
    intro b h1 _
    cases b with
    | nil => rfl
    | cons y ys => exact absurd h1 (by simp [chListLt])
  | cons x xs ih =>
    intro b h1 h2
    cases b with
    | nil => exact absurd h2 (by simp [chListLt])
    | cons y ys =>
      simp only [chListLt] at h1 h2
      by_cases hxy : x.toNat < y.toNat
      · rw [if_pos hxy] at h1
        cases h1
      · by_cases hyx : y.toNat < x.toNat
        · rw [if_pos hyx] at h2
          cases h2
        · rw [if_neg hxy, if_neg hyx] at h1
          have hx : x = y := char_eq_of_toNat_eq (by omega)
          rw [if_neg hyx, if_neg hxy] at h2
          rw [hx, ih h1 h2]

theorem strLtB_asymm {a b : String} (h : strLtB a b = true) : strLtB b a = false :=
  chListLt_asymm h

theorem strLtB_trans {a b c : String} (h1 : strLtB a b = true) (h2 : strLtB b c = true) :
    strLtB a c = true :=
  chListLt_trans h1 h2

theorem strLtB_connex {a b : String} (h1 : strLtB a b = false) (h2 : strLtB b a = false) :
    a = b := by
  have hd : a.data = b.data := chListLt_connex h1 h2
  cases a
  cases b
  simp at hd
  rw [hd]

instance : IsAntisymm (String × String) manifestLt :=
  ⟨fun _ _ h1 h2 => by
    unfold manifestLt at h1 h2
    rw [strLtB_asymm h1] at h2
    cases h2⟩

theorem btreeInsert_mem {k v : String} : ∀ {m : List (String × String)} {x : String × String},
    x ∈ btreeInsert k v m → x = (k, v) ∨ x ∈ m := by
  intro m
  induction m with
  | nil =>
    intro x hx
    simp [btreeInsert] at hx
    exact Or.inl hx
  | cons e t ih =>
    intro x hx
    obtain ⟨k2, v2⟩ := e
    simp only [btreeInsert] at hx
    by_cases h1 : strLtB k k2 = true
    · rw [if_pos h1] at hx
      rcases List.mem_cons.mp hx with h | h
      · exact Or.inl h
      · exact Or.inr h
    · rw [if_neg h1] at hx
      by_cases h2 : k = k2
      · rw [if_pos h2] at hx
        rcases List.mem_cons.mp hx with h | h
        · exact Or.inl h
        · exact Or.inr (List.mem_cons_of_mem _ h)
      · rw [if_neg h2] at hx
        rcases List.mem_cons.mp hx with h | h
        · exact Or.inr (h ▸ List.mem_cons_self _ _)
        · rcases ih h with h3 | h3
          · exact Or.inl h3
          · exact Or.inr (List.mem_cons_of_mem _ h3)

theorem btreeInsert_sorted {k v : String} : ∀ {m : List (String × String)},
    m.Pairwise manifestLt → (btreeInsert k v m).Pairwise manifestLt := by
  intro m
  induction m with
  | nil => intro _; simp [btreeInsert]
  | cons e t ih =>
    intro hs
    obtain ⟨k2, v2⟩ := e
    have hhead := (List.pairwise_cons.mp hs).1
    have htail := (List.pairwise_cons.mp hs).2
    simp only [btreeInsert]
    by_cases h1 : strLtB k k2 = true
    · rw [if_pos h1]
      refine List.pairwise_cons.mpr ⟨?_, hs⟩
      intro x hx
      rcases List.mem_cons.mp hx with h | h
      · subst h
        exact h1
      · exact strLtB_trans h1 (hhead x h)
    · rw [if_neg h1]
      by_cases h2 : k = k2
      · rw [if_pos h2]
        refine List.pairwise_cons.mpr ⟨?_, htail⟩
        intro x hx
        subst h2
        exact hhead x hx
      · rw [if_neg h2]
        refine List.pairwise_cons.mpr ⟨?_, ih htail⟩
        intro x hx
        have hk2k : strLtB k2 k = true := by
          cases h3 : strLtB k2 k with
          | true => rfl
          | false =>
            have : k = k2 := strLtB_connex (by simpa using h1) h3
            exact absurd this h2
        rcases btreeInsert_mem hx with h | h
        · subst h
          exact hk2k
        · exact hhead x h

theorem btreeInsert_perm {k v : String} : ∀ {m : List (String × String)},
    k ∉ m.map Prod.fst → (btreeInsert k v m).Perm ((k, v) :: m) := by
  intro m
  induction m with
  | nil => intro _; simp [btreeInsert]
  | cons e t ih =>
    intro hk
    obtain ⟨k2, v2⟩ := e
    have hne : k ≠ k2 := by
      intro hcontra
      exact hk (by simp [hcontra])
    have hkt : k ∉ t.map Prod.fst := by
      intro hcontra
      exact hk (by simp [hcontra])
    simp only [btreeInsert]
    by_cases h1 : strLtB k k2 = true
    · rw [if_pos h1]
    · rw [if_neg h1, if_neg hne]
      exact (List.Perm.cons _ (ih hkt)).trans (List.Perm.swap _ _ _)

theorem foldl_reg_filterMap : ∀ (results : List DocResult) (m : List (String × String)),
    results.foldl (fun acc r => match r.reg with
      | some e => btreeInsert e.1 e.2 acc
      | none => acc) m =
    manifestFold (results.filterMap (fun r => r.reg)) m := by
  intro results
  induction results with
  | nil => intro m; rfl
  | cons r t ih =>
    intro m
    cases hr : r.reg with
    | none =>
      rw [List.foldl_cons, List.filterMap_cons, hr]
      exact ih m
    | some e =>
      rw [List.foldl_cons, List.filterMap_cons, hr]
      exact ih (btreeInsert e.1 e.2 m)

theorem generateDocs_manifest_eq (oracle : String → Bool) (outPath : String)
    (docs : List DocInput) :
    (generateDocs oracle outPath docs).manifest =
      manifestFold ((docs.map (processDoc oracle (outPath ++ "/src"))).filterMap
        (fun r => r.reg)) [] :=
  foldl_reg_filterMap _ []

theorem manifestFold_sorted : ∀ (regs : List (String × String)) (m : List (String × String)),
    m.Pairwise manifestLt → (manifestFold regs m).Pairwise manifestLt := by
  intro regs
  induction regs with
  | nil => intro m h; exact h
  | cons e t ih =>
    intro m h
    exact ih _ (btreeInsert_sorted h)

theorem manifestFold_perm : ∀ (regs : List (String × String)) (m : List (String × String)),
    ((regs.map Prod.fst) ++ (m.map Prod.fst)).Nodup →
    (manifestFold regs m).Perm (regs ++ m) := by
  intro regs
  induction regs with
  | nil => intro m _; simp [manifestFold]
  | cons e t ih =>
    intro m hnd
    have hkey : e.1 ∉ m.map Prod.fst := by
      simp only [List.map_cons, List.cons_append, List.nodup_cons] at hnd
      intro hcontra
      exact hnd.1 (List.mem_append.mpr (Or.inr hcontra))
    have hins : (btreeInsert e.1 e.2 m).Perm ((e.1, e.2) :: m) := btreeInsert_perm hkey
    have hinskeys : ((btreeInsert e.1 e.2 m).map Prod.fst).Perm (e.1 :: m.map Prod.fst) := by
      have := hins.map Prod.fst
      simpa using this
    have hnd2 : ((t.map Prod.fst) ++ ((btreeInsert e.1 e.2 m).map Prod.fst)).Nodup := by
      have hp1 : ((t.map Prod.fst) ++ ((btreeInsert e.1 e.2 m).map Prod.fst)).Perm
          ((t.map Prod.fst) ++ (e.1 :: m.map Prod.fst)) :=
        List.Perm.append_left _ hinskeys
      have hp2 : ((t.map Prod.fst) ++ (e.1 :: m.map Prod.fst)).Perm
          (e.1 :: (t.map Prod.fst ++ m.map Prod.fst)) := List.perm_middle
      refine ((hp1.trans hp2).nodup_iff).mpr ?_
      simpa using hnd
    have hmain : (manifestFold t (btreeInsert e.1 e.2 m)).Perm (t ++ btreeInsert e.1 e.2 m) :=
      ih _ hnd2
    show (manifestFold t (btreeInsert e.1 e.2 m)).Perm ((e :: t) ++ m)
    have h2 : (t ++ btreeInsert e.1 e.2 m).Perm (t ++ (e :: m)) :=
      List.Perm.append_left _ (by simpa using hins)
    have h3 : (t ++ (e :: m)).Perm (e :: (t ++ m)) := List.perm_middle
    exact hmain.trans (h2.trans h3)

theorem processDoc_reg_iff_file (oracle : String → Bool) (outSrc : String) (d : DocInput) :
    ((processDoc oracle outSrc d).reg).isSome = ((processDoc oracle outSrc d).file).isSome := by
  unfold processDoc
  cases d.swagger with
  | none => rfl
  | some sw =>
    by_cases hemp : (dataOf sw).1.isEmpty
    · simp [hemp]
    · by_cases hor : oracle (outSrc ++ "/" ++ (format_as_file_name d.domain_name ++ "_" ++
        format_as_file_name d.file_name) ++ ".rs")
      · simp [hemp, hor]
      · simp [hemp, hor]

theorem processDoc_reg_key (oracle : String → Bool) (outSrc : String) (d : DocInput)
    {e : String × String} (h : (processDoc oracle outSrc d).reg = some e) :
    e.1 = format_as_file_name d.file_name := by
  unfold processDoc at h
  cases hs : d.swagger with
  | none => rw [hs] at h; cases h
  | some sw =>
    rw [hs] at h
    by_cases hemp : (dataOf sw).1.isEmpty
    · simp [hemp] at h
    · by_cases hor : oracle (outSrc ++ "/" ++ (format_as_file_name d.domain_name ++ "_" ++
        format_as_file_name d.file_name) ++ ".rs")
      · simp [hemp, hor] at h
        rw [← h]
      · simp [hemp, hor] at h

theorem regs_keys_sublist (oracle : String → Bool) (outSrc : String) :
    ∀ docs : List DocInput,
    ((((docs.map (processDoc oracle outSrc)).filterMap (fun r => r.reg)).map
      Prod.fst)).Sublist (docs.map (fun d => format_as_file_name d.file_name)) := by
  intro docs
  induction docs with
  | nil => simp
  | cons d t ih =>
    rw [List.map_cons, List.filterMap_cons, List.map_cons]
    cases hr : (processDoc oracle outSrc d).reg with
    | none => exact ih.cons _
    | some e =>
      rw [List.map_cons, processDoc_reg_key oracle outSrc d hr]
      exact ih.cons₂ _

/-- C5 counterexample: a run with two documents sharing one file name
under two domain names writes two files but the final manifest holds one
line, so the manifest is not one line per successfully written file. -/
theorem c5_counterexample :
    (generateDocs (fun _ => true) "out"
      [⟨"f", "d1", some ⟨none, some [("p1", ⟨some .string, none, none⟩)]⟩⟩,
       ⟨"f", "d2", some ⟨none, some [("p1", ⟨some .string, none, none⟩)]⟩⟩]).files.length
      = 2 ∧
    (generateDocs (fun _ => true) "out"
      [⟨"f", "d1", some ⟨none, some [("p1", ⟨some .string, none, none⟩)]⟩⟩,
       ⟨"f", "d2", some ⟨none, some [("p1", ⟨some .string, none, none⟩)]⟩⟩]).manifest.length
      = 1 :=
  ⟨rfl, rfl⟩

/-- C5 (amended): a module line is registered for a document exactly when
its output file was written, and when the documents' formatted file names
are pairwise distinct the final manifest holds exactly the registered
lines, in strictly increasing lexicographic key order. -/
theorem c5_registration_manifest :
    ∀ (oracle : String → Bool) (outPath : String) (docs : List DocInput),
      (∀ d : DocInput, ((processDoc oracle (outPath ++ "/src") d).reg).isSome =
        ((processDoc oracle (outPath ++ "/src") d).file).isSome) ∧
      ((docs.map (fun d => format_as_file_name d.file_name)).Nodup →
        (generateDocs oracle outPath docs).manifest.Perm
          ((docs.map (processDoc oracle (outPath ++ "/src"))).filterMap (fun r => r.reg)) ∧
        (generateDocs oracle outPath docs).manifest.Pairwise manifestLt) := by
  intro oracle outPath docs
  refine ⟨fun d => processDoc_reg_iff_file oracle (outPath ++ "/src") d, fun hnd => ?_⟩
  have hkeys := regs_keys_sublist oracle (outPath ++ "/src") docs
  have hnd2 : ((((docs.map (processDoc oracle (outPath ++ "/src"))).filterMap
      (fun r => r.reg)).map Prod.fst)).Nodup := hkeys.nodup hnd
  rw [generateDocs_manifest_eq]
  constructor
  · have hperm := manifestFold_perm
      ((docs.map (processDoc oracle (outPath ++ "/src"))).filterMap (fun r => r.reg)) []
      (by simpa using hnd2)
    simpa using hperm
  · exact manifestFold_sorted _ _ (by simp)

/-- C5 witness: two documents with distinct file names, both registered,
manifest sorted. -/
theorem c5_witness :
    (((generateDocs (fun _ => true) "out"
      [⟨"b", "d", some ⟨none, some [("p1", ⟨some .string, none, none⟩)]⟩⟩,
       ⟨"a", "d", some ⟨none, some [("p1", ⟨some .string, none, none⟩)]⟩⟩]).manifest).Perm
      (([⟨"b", "d", some ⟨none, some [("p1", ⟨some .string, none, none⟩)]⟩⟩,
        ⟨"a", "d", some ⟨none, some [("p1", ⟨some .string, none, none⟩)]⟩⟩].map
          (processDoc (fun _ => true) ("out" ++ "/src"))).filterMap (fun r => r.reg))) ∧
    ((generateDocs (fun _ => true) "out"
      [⟨"b", "d", some ⟨none, some [("p1", ⟨some .string, none, none⟩)]⟩⟩,
       ⟨"a", "d", some ⟨none, some [("p1", ⟨some .string, none, none⟩)]⟩⟩]).manifest).Pairwise
      manifestLt :=
  (c5_registration_manifest (fun _ => true) "out"
    [⟨"b", "d", some ⟨none, some [("p1", ⟨some .string, none, none⟩)]⟩⟩,
     ⟨"a", "d", some ⟨none, some [("p1", ⟨some .string, none, none⟩)]⟩⟩]).2
    (by decide)

theorem optPerm_refl {α : Type} (o : Option (List α)) : optPerm o o := by
  cases o with
  | none => trivial
  | some l => exact List.Perm.refl l

theorem swaggerEquiv_refl (s : Swagger) : swaggerEquiv s s :=
  ⟨optPerm_refl _, optPerm_refl _⟩

theorem docEquiv_refl (d : DocInput) : docEquiv d d := by
  refine ⟨rfl, rfl, ?_⟩
  cases d.swagger with
  | none => trivial
  | some sw => exact swaggerEquiv_refl sw

theorem forall2_docEquiv_refl (docs : List DocInput) : List.Forall₂ docEquiv docs docs := by
  induction docs with
  | nil => exact List.Forall₂.nil
  | cons d t ih => exact List.Forall₂.cons (docEquiv_refl d) ih

theorem gp_fst_eq_filterMap : ∀ ps : List (String × Parameter),
    (generate_parameters ps).1 = ps.filterMap paramDecl := by
  intro ps
  induction ps with
  | nil => rfl
  | cons e t ih =>
    obtain ⟨n, p⟩ := e
    rw [List.filterMap_cons]
    cases hpt : p.property_type with
    | none =>
      rw [show paramDecl (n, p) = none from by simp [paramDecl, hpt]]
      simp only [generate_parameters, hpt]
      exact ih
    | some pt =>
      cases pt with
      | object =>
        rw [show paramDecl (n, p) = none from by simp [paramDecl, hpt]]
        simp only [generate_parameters, hpt]
        exact ih
      | boolean =>
        rw [show paramDecl (n, p) = none from by simp [paramDecl, hpt]]
        simp only [generate_parameters, hpt]
        exact ih
      | array =>
        rw [show paramDecl (n, p) = none from by simp [paramDecl, hpt]]
        simp only [generate_parameters, hpt]
        exact ih
      | string =>
        rw [show paramDecl (n, p) = some (n, create_struct_simple_type n "String") from by
          simp [paramDecl, hpt]]
        simp only [generate_parameters, hpt, get_type_as_string]
        rw [ih]
      | integer =>
        rw [show paramDecl (n, p) = some (n, create_struct_simple_type n "i32") from by
          simp [paramDecl, hpt]]
        simp only [generate_parameters, hpt, get_type_as_string]
        rw [ih]
      | number =>
        rw [show paramDecl (n, p) = some (n, create_struct_simple_type n "f32") from by
          simp [paramDecl, hpt]]
        simp only [generate_parameters, hpt, get_type_as_string]
        rw [ih]

theorem gd_eq_filterMap : ∀ ds : List (String × Definition),
    generate_definitions ds = ds.filterMap defnDecl := by
  intro ds
  induction ds with
  | nil => rfl
  | cons e t ih =>
    obtain ⟨n, d⟩ := e
    rw [List.filterMap_cons]
    cases hs : d.schema with
    | object props add =>
      rw [show defnDecl (n, d) = some (n, create_struct n props) from by
        simp [defnDecl, hs]]
      rw [show generate_definitions ((n, d) :: t) =
        (n, create_struct n props) :: generate_definitions t from by
          rw [show generate_definitions ((n, d) :: t) =
            match d.schema with
            | .object props2 _ => (n, create_struct n props2) :: generate_definitions t
            | _ => generate_definitions t from rfl, hs]]
      rw [ih]
    | array i a =>
      rw [show defnDecl (n, d) = none from by simp [defnDecl, hs]]
      rw [show generate_definitions ((n, d) :: t) = generate_definitions t from by
        rw [show generate_definitions ((n, d) :: t) =
          match d.schema with
          | .object props2 _ => (n, create_struct n props2) :: generate_definitions t
          | _ => generate_definitions t from rfl, hs]]
      exact ih
    | string a =>
      rw [show defnDecl (n, d) = none from by simp [defnDecl, hs]]
      rw [show generate_definitions ((n, d) :: t) = generate_definitions t from by
        rw [show generate_definitions ((n, d) :: t) =
          match d.schema with
          | .object props2 _ => (n, create_struct n props2) :: generate_definitions t
          | _ => generate_definitions t from rfl, hs]]
      exact ih
    | number a =>
      rw [show defnDecl (n, d) = none from by simp [defnDecl, hs]]
      rw [show generate_definitions ((n, d) :: t) = generate_definitions t from by
        rw [show generate_definitions ((n, d) :: t) =
          match d.schema with
          | .object props2 _ => (n, create_struct n props2) :: generate_definitions t
          | _ => generate_definitions t from rfl, hs]]
      exact ih
    | integer a =>
      rw [show defnDecl (n, d) = none from by simp [defnDecl, hs]]
      rw [show generate_definitions ((n, d) :: t) = generate_definitions t from by
        rw [show generate_definitions ((n, d) :: t) =
          match d.schema with
          | .object props2 _ => (n, create_struct n props2) :: generate_definitions t
          | _ => generate_definitions t from rfl, hs]]
      exact ih
    | boolean a =>
      rw [show defnDecl (n, d) = none from by simp [defnDecl, hs]]
      rw [show generate_definitions ((n, d) :: t) = generate_definitions t from by
        rw [show generate_definitions ((n, d) :: t) =
          match d.schema with
          | .object props2 _ => (n, create_struct n props2) :: generate_definitions t
          | _ => generate_definitions t from rfl, hs]]
      exact ih

/-- Keys of a key-preserving `filterMap` form a sublist of the input keys. -/
theorem map_fst_filterMap_sublist {α γ : Type} (f : (String × α) → Option (String × γ))
    (hf : ∀ e r, f e = some r → r.1 = e.1) :
    ∀ l : List (String × α),
      ((l.filterMap f).map Prod.fst).Sublist (l.map Prod.fst) := by
  intro l
  induction l with
  | nil => simp
  | cons e t ih =>
    rw [List.filterMap_cons, List.map_cons]
    cases hr : f e with
    | none => exact ih.cons _
    | some r =>
      rw [List.map_cons, hf e r hr]
      exact ih.cons₂ _

theorem any_perm {α : Type} {l1 l2 : List α} (h : l1.Perm l2) (f : α → Bool) :
    l1.any f = l2.any f := by
  cases ha : l1.any f with
  | true =>
    rw [List.any_eq_true] at ha
    obtain ⟨x, hx, hfx⟩ := ha
    exact (List.any_eq_true.mpr ⟨x, h.mem_iff.mp hx, hfx⟩).symm
  | false =>
    cases hb : l2.any f with
    | false => rfl
    | true =>
      rw [List.any_eq_true] at hb
      obtain ⟨x, hx, hfx⟩ := hb
      rw [List.any_eq_true.mpr ⟨x, h.mem_iff.mpr hx, hfx⟩] at ha
      cases ha

theorem mergeRB_perm {a1 a2 b1 b2 : List (String × String)}
    (ha : a1.Perm a2) (hb : b1.Perm b2) : (mergeRB a1 b1).Perm (mergeRB a2 b2) := by
  unfold mergeRB
  have hfun : (fun e : String × String => !(b1.any (fun e2 => e2.1 == e.1))) =
      (fun e : String × String => !(b2.any (fun e2 => e2.1 == e.1))) := by
    funext e
    rw [any_perm hb]
  rw [hfun]
  exact (ha.filter _).append hb

/-- Keys of the right-biased union: distinct when both sides' keys are. -/
theorem mergeRB_keys_nodup {a b : List (String × String)}
    (hna : (a.map Prod.fst).Nodup) (hnb : (b.map Prod.fst).Nodup) :
    ((mergeRB a b).map Prod.fst).Nodup := by
  unfold mergeRB
  rw [List.map_append]
  rw [List.nodup_append]
  refine ⟨?_, hnb, ?_⟩
  · have hsub : ((a.filter (fun e => !(b.any (fun e2 => e2.1 == e.1)))).map
        Prod.fst).Sublist (a.map Prod.fst) := (List.filter_sublist a).map _
    exact hsub.nodup hna
  · intro x hx1 hx2
    rw [List.mem_map] at hx1
    obtain ⟨e, he, hex⟩ := hx1
    have hkeep := (List.mem_filter.mp he).2
    rw [List.mem_map] at hx2
    obtain ⟨e2, he2, he2x⟩ := hx2
    have : b.any (fun e3 => e3.1 == e.1) = true :=
      List.any_eq_true.mpr ⟨e2, he2, by simp [he2x, hex]⟩
    rw [this] at hkeep
    cases hkeep

theorem paramDecl_key (e : String × Parameter) (r : String × String)
    (h : paramDecl e = some r) : r.1 = e.1 := by
  unfold paramDecl at h
  cases hpt : e.2.property_type with
  | none => rw [hpt] at h; cases h
  | some pt =>
    rw [hpt] at h
    cases pt with
    | object => cases h
    | boolean => cases h
    | array => cases h
    | string =>
      have h2 := (Option.some.injEq _ _).mp h
      rw [← h2]
    | integer =>
      have h2 := (Option.some.injEq _ _).mp h
      rw [← h2]
    | number =>
      have h2 := (Option.some.injEq _ _).mp h
      rw [← h2]

theorem defnDecl_key (e : String × Definition) (r : String × String)
    (h : defnDecl e = some r) : r.1 = e.1 := by
  unfold defnDecl at h
  cases hs : e.2.schema with
  | object props add =>
    rw [hs] at h
    have := (Option.some.injEq _ _).mp h
    rw [← this]
  | array i a => rw [hs] at h; cases h
  | string a => rw [hs] at h; cases h
  | number a => rw [hs] at h; cases h
  | integer a => rw [hs] at h; cases h
  | boolean a => rw [hs] at h; cases h

theorem dataOf_perm {s1 s2 : Swagger} (h : swaggerEquiv s1 s2) :
    (dataOf s1).1.Perm (dataOf s2).1 := by
  obtain ⟨hd, hp⟩ := h
  unfold dataOf
  have hps : (match s1.parameters with
      | some ps => generate_parameters ps
      | none => ([], [])).1.Perm (match s2.parameters with
      | some ps => generate_parameters ps
      | none => ([], [])).1 := by
    cases h1 : s1.parameters with
    | none =>
      cases h2 : s2.parameters with
      | none => exact List.Perm.refl _
      | some ps2 => rw [h1, h2] at hp; cases hp
    | some ps1 =>
      cases h2 : s2.parameters with
      | none => rw [h1, h2] at hp; cases hp
      | some ps2 =>
        rw [h1, h2] at hp
        rw [gp_fst_eq_filterMap, gp_fst_eq_filterMap]
        exact hp.filterMap _
  have hds : (match s1.definitions with
      | some l => generate_definitions l
      | none => []).Perm (match s2.definitions with
      | some l => generate_definitions l
      | none => []) := by
    cases h1 : s1.definitions with
    | none =>
      cases h2 : s2.definitions with
      | none => exact List.Perm.refl _
      | some ds2 => rw [h1, h2] at hd; cases hd
    | some ds1 =>
      cases h2 : s2.definitions with
      | none => rw [h1, h2] at hd; cases hd
      | some ds2 =>
        rw [h1, h2] at hd
        have hd2 : ds1.Perm ds2 := hd
        show (generate_definitions ds1).Perm (generate_definitions ds2)
        rw [gd_eq_filterMap, gd_eq_filterMap]
        exact hd2.filterMap _
  exact mergeRB_perm hps hds

theorem dataOf_keys_nodup {s : Swagger} (h : wfSwagger s) :
    ((dataOf s).1.map Prod.fst).Nodup := by
  obtain ⟨hd, hp⟩ := h
  unfold dataOf
  apply mergeRB_keys_nodup
  · cases h1 : s.parameters with
    | none => simp
    | some ps =>
      rw [h1] at hp
      show (((generate_parameters ps).1).map Prod.fst).Nodup
      rw [gp_fst_eq_filterMap]
      exact (map_fst_filterMap_sublist paramDecl paramDecl_key ps).nodup hp
  · cases h1 : s.definitions with
    | none => simp
    | some ds =>
      rw [h1] at hd
      show ((generate_definitions ds).map Prod.fst).Nodup
      rw [gd_eq_filterMap]
      exact (map_fst_filterMap_sublist defnDecl defnDecl_key ds).nodup hd

theorem sanKey_nodup {l : List (String × String)} (h : (l.map Prod.fst).Nodup) :
    (l.map sanKey).Nodup := by
  have h2 : l.Pairwise (fun a b => a.1 ≠ b.1) := List.pairwise_map.mp h
  have h3 : l.Pairwise (fun a b => sanKey a ≠ sanKey b) :=
    h2.imp (fun hne hcontra => hne (congrArg Prod.snd (toLex_inj.mp hcontra)))
  exact List.pairwise_map.mpr h3

theorem renderFile_congr {d1 d2 : List (String × String)} (hp : d1.Perm d2)
    (hnd : (d1.map Prod.fst).Nodup) : renderFile d1 = renderFile d2 := by
  unfold renderFile
  rw [sortByKey_eq_of_perm sanKey hp (sanKey_nodup hnd)]

theorem perm_isEmpty {α : Type} {l1 l2 : List α} (h : l1.Perm l2) :
    l1.isEmpty = l2.isEmpty := by
  cases h1 : l1 with
  | nil =>
    rw [h1] at h
    have h2 : l2 = [] := h.symm.eq_nil
    rw [h2]
  | cons a t =>
    cases h2 : l2 with
    | nil =>
      rw [h1, h2] at h
      have := h.eq_nil
      cases this
    | cons b t2 => rfl

/-- A parsed document with an empty declaration map is skipped (generic
helper form). -/
theorem processDoc_skips (oracle : String → Bool) (outSrc : String) (d : DocInput)
    (sw : Swagger) (h : d.swagger = some sw) (hemp : (dataOf sw).1 = []) :
    processDoc oracle outSrc d =
      ⟨none, none, (dataOf sw).2 ++ [.skippedEmpty (format_as_file_name d.file_name)]⟩ := by
  unfold processDoc
  rw [h]
  simp [hemp]

theorem processDoc_equiv (oracle : String → Bool) (outSrc : String) {d1 d2 : DocInput}
    (he : docEquiv d1 d2) (hw : wfDoc d1) :
    (processDoc oracle outSrc d1).file = (processDoc oracle outSrc d2).file ∧
    (processDoc oracle outSrc d1).reg = (processDoc oracle outSrc d2).reg := by
  obtain ⟨hf, hd, hsw⟩ := he
  cases h1 : d1.swagger with
  | none =>
    cases h2 : d2.swagger with
    | none =>
      rw [show processDoc oracle outSrc d1 = ⟨none, none, []⟩ from by
        unfold processDoc; rw [h1]]
      rw [show processDoc oracle outSrc d2 = ⟨none, none, []⟩ from by
        unfold processDoc; rw [h2]]
      exact ⟨rfl, rfl⟩
    | some s2 => rw [h1, h2] at hsw; cases hsw
  | some s1 =>
    cases h2 : d2.swagger with
    | none => rw [h1, h2] at hsw; cases hsw
    | some s2 =>
      rw [h1, h2] at hsw
      have hsw2 : swaggerEquiv s1 s2 := hsw
      have hw2 : wfSwagger s1 := by
        unfold wfDoc at hw
        rw [h1] at hw
        exact hw
      have hperm := dataOf_perm hsw2
      have hnd := dataOf_keys_nodup hw2
      by_cases hE : (dataOf s1).1 = []
      · have hE2 : (dataOf s2).1 = [] := by
          rw [hE] at hperm
          exact hperm.symm.eq_nil
        rw [processDoc_skips oracle outSrc d1 s1 h1 hE,
          processDoc_skips oracle outSrc d2 s2 h2 hE2]
        exact ⟨rfl, rfl⟩
      · have hE2 : (dataOf s2).1 ≠ [] := by
          intro hcontra
          rw [hcontra] at hperm
          exact hE hperm.eq_nil
        by_cases hor : oracle (outSrc ++ "/" ++ (format_as_file_name d1.domain_name ++ "_" ++
          format_as_file_name d1.file_name) ++ ".rs") = true
        · have hor2 : oracle (outSrc ++ "/" ++ (format_as_file_name d2.domain_name ++ "_" ++
            format_as_file_name d2.file_name) ++ ".rs") = true := by
            rw [← hf, ← hd]
            exact hor
          rw [processDoc_writes oracle outSrc d1 s1 h1 hE hor,
            processDoc_writes oracle outSrc d2 s2 h2 hE2 hor2]
          rw [hf, hd, renderFile_congr hperm hnd]
          exact ⟨rfl, rfl⟩
        · have hor1f : oracle (outSrc ++ "/" ++ (format_as_file_name d1.domain_name ++ "_" ++
            format_as_file_name d1.file_name) ++ ".rs") = false := by
            cases hx : oracle (outSrc ++ "/" ++ (format_as_file_name d1.domain_name ++ "_" ++
              format_as_file_name d1.file_name) ++ ".rs") with
            | true => exact absurd hx hor
            | false => rfl
          have hor2 : oracle (outSrc ++ "/" ++ (format_as_file_name d2.domain_name ++ "_" ++
            format_as_file_name d2.file_name) ++ ".rs") = false := by
            rw [← hf, ← hd]
            exact hor1f
          rw [processDoc_write_fails oracle outSrc d1 s1 h1 hE hor1f,
            processDoc_write_fails oracle outSrc d2 s2 h2 hE2 hor2]
          exact ⟨rfl, rfl⟩

theorem results_files_regs_eq (oracle : String → Bool) (outSrc : String) :
    ∀ {mid docs2 : List DocInput}, List.Forall₂ docEquiv mid docs2 →
    (∀ d ∈ mid, wfDoc d) →
    ((mid.map (processDoc oracle outSrc)).filterMap (fun r => r.file)) =
      ((docs2.map (processDoc oracle outSrc)).filterMap (fun r => r.file)) ∧
    ((mid.map (processDoc oracle outSrc)).filterMap (fun r => r.reg)) =
      ((docs2.map (processDoc oracle outSrc)).filterMap (fun r => r.reg)) := by
  intro mid docs2 hall
  induction hall with
  | nil => intro _; exact ⟨rfl, rfl⟩
  | @cons a b l1 l2 hhead htail ih =>
    intro hwf
    have hw1 : wfDoc a := hwf a (by simp)
    have hpe := processDoc_equiv oracle outSrc hhead hw1
    have ihr := ih (fun d hd => hwf d (by simp [hd]))
    constructor
    · rw [List.map_cons, List.map_cons, List.filterMap_cons, List.filterMap_cons,
        hpe.1, ihr.1]
    · rw [List.map_cons, List.map_cons, List.filterMap_cons, List.filterMap_cons,
        hpe.2, ihr.2]

theorem processDoc_file_key (oracle : String → Bool) (outSrc : String) (d : DocInput)
    {e : String × String} (h : (processDoc oracle outSrc d).file = some e) :
    e.1 = outSrc ++ "/" ++ (format_as_file_name d.domain_name ++ "_" ++
      format_as_file_name d.file_name) ++ ".rs" := by
  unfold processDoc at h
  cases hs : d.swagger with
  | none => rw [hs] at h; cases h
  | some sw =>
    rw [hs] at h
    by_cases hemp : (dataOf sw).1.isEmpty
    · simp [hemp] at h
    · by_cases hor : oracle (outSrc ++ "/" ++ (format_as_file_name d.domain_name ++ "_" ++
        format_as_file_name d.file_name) ++ ".rs")
      · simp [hemp, hor] at h
        rw [← h]
      · simp [hemp, hor] at h

theorem files_paths_sublist (oracle : String → Bool) (outSrc : String) :
    ∀ docs : List DocInput,
    ((((docs.map (processDoc oracle outSrc)).filterMap (fun r => r.file)).map
      Prod.fst)).Sublist (docs.map (fun d => outSrc ++ "/" ++
        (format_as_file_name d.domain_name ++ "_" ++
          format_as_file_name d.file_name) ++ ".rs")) := by
  intro docs
  induction docs with
  | nil => simp
  | cons d t ih =>
    rw [List.map_cons, List.filterMap_cons, List.map_cons]
    cases hr : (processDoc oracle outSrc d).file with
    | none => exact ih.cons _
    | some e =>
      rw [List.map_cons, processDoc_file_key oracle outSrc d hr]
      exact ih.cons₂ _

/-- C3 counterexample: identical input seen under two iteration orders
(two documents sharing a file name, outer map iterated in either order)
produces different manifests, so the pipeline is not deterministic for
every input. -/
theorem c3_counterexample :
    runEquiv
      [⟨"f", "d1", some ⟨none, some [("p1", ⟨some .string, none, none⟩)]⟩⟩,
       ⟨"f", "d2", some ⟨none, some [("p1", ⟨some .string, none, none⟩)]⟩⟩]
      [⟨"f", "d2", some ⟨none, some [("p1", ⟨some .string, none, none⟩)]⟩⟩,
       ⟨"f", "d1", some ⟨none, some [("p1", ⟨some .string, none, none⟩)]⟩⟩] ∧
    (generateDocs (fun _ => true) "out"
      [⟨"f", "d1", some ⟨none, some [("p1", ⟨some .string, none, none⟩)]⟩⟩,
       ⟨"f", "d2", some ⟨none, some [("p1", ⟨some .string, none, none⟩)]⟩⟩]).manifest ≠
    (generateDocs (fun _ => true) "out"
      [⟨"f", "d2", some ⟨none, some [("p1", ⟨some .string, none, none⟩)]⟩⟩,
       ⟨"f", "d1", some ⟨none, some [("p1", ⟨some .string, none, none⟩)]⟩⟩]).manifest := by
  constructor
  · refine ⟨[⟨"f", "d2", some ⟨none, some [("p1", ⟨some .string, none, none⟩)]⟩⟩,
      ⟨"f", "d1", some ⟨none, some [("p1", ⟨some .string, none, none⟩)]⟩⟩], ?_, ?_⟩
    · exact List.Perm.swap _ _ _
    · exact forall2_docEquiv_refl _
  · intro hcontra
    have h1 : (generateDocs (fun _ => true) "out"
      [⟨"f", "d1", some ⟨none, some [("p1", ⟨some .string, none, none⟩)]⟩⟩,
       ⟨"f", "d2", some ⟨none, some [("p1", ⟨some .string, none, none⟩)]⟩⟩]).manifest =
      [("f", "pub mod d2_f;\n")] := rfl
    have h2 : (generateDocs (fun _ => true) "out"
      [⟨"f", "d2", some ⟨none, some [("p1", ⟨some .string, none, none⟩)]⟩⟩,
       ⟨"f", "d1", some ⟨none, some [("p1", ⟨some .string, none, none⟩)]⟩⟩]).manifest =
      [("f", "pub mod d1_f;\n")] := rfl
    rw [h1, h2] at hcontra
    exact absurd hcontra (by decide)

/-- C3 (amended): on identical input — the same documents up to the
iteration orders of the outer map and of each document's definition and
parameter maps — the pipeline produces the same set of output files
(byte-identical contents, compared sorted by path) and the identical
manifest, provided the documents' formatted file names and composed
output file names are pairwise distinct; within each file the
declarations are sorted by sanitized name. -/
theorem c3_determinism :
    ∀ (oracle : String → Bool) (outPath : String) (docs1 docs2 : List DocInput),
      runEquiv docs1 docs2 →
      (∀ d ∈ docs1, wfDoc d) →
      (docs1.map (fun d => format_as_file_name d.file_name)).Nodup →
      (docs1.map (fun d => format_as_file_name d.domain_name ++ "_" ++
        format_as_file_name d.file_name)).Nodup →
      sortByKey Prod.fst (generateDocs oracle outPath docs1).files =
        sortByKey Prod.fst (generateDocs oracle outPath docs2).files ∧
      (generateDocs oracle outPath docs1).manifest =
        (generateDocs oracle outPath docs2).manifest := by
  intro oracle outPath docs1 docs2 hre hwf hfile hfull
  obtain ⟨mid, hperm, hall⟩ := hre
  have hwfMid : ∀ d ∈ mid, wfDoc d := fun d hd => hwf d (hperm.mem_iff.mpr hd)
  have hfileMid : (mid.map (fun d => format_as_file_name d.file_name)).Nodup :=
    ((hperm.map _).nodup_iff).mp hfile
  have hpt := results_files_regs_eq oracle (outPath ++ "/src") hall hwfMid
  constructor
  · have hfilesPerm : (((docs1.map (processDoc oracle (outPath ++ "/src"))).filterMap
        (fun r => r.file))).Perm
        (((mid.map (processDoc oracle (outPath ++ "/src"))).filterMap
          (fun r => r.file))) := (hperm.map _).filterMap _
    have hpathsNodup : ((((docs1.map (processDoc oracle (outPath ++ "/src"))).filterMap
        (fun r => r.file))).map Prod.fst).Nodup := by
      refine (files_paths_sublist oracle (outPath ++ "/src") docs1).nodup ?_
      have hinj : Function.Injective
          (fun x : String => (outPath ++ "/src") ++ "/" ++ x ++ ".rs") := by
        intro a b hab
        exact str_append_cancel_left (str_append_cancel_right hab)
      have hmapped := hfull.map hinj
      rw [List.map_map] at hmapped
      exact hmapped
    show sortByKey Prod.fst ((docs1.map (processDoc oracle (outPath ++ "/src"))).filterMap
      (fun r => r.file)) = sortByKey Prod.fst ((docs2.map
        (processDoc oracle (outPath ++ "/src"))).filterMap (fun r => r.file))
    rw [← hpt.1]
    exact sortByKey_eq_of_perm Prod.fst hfilesPerm hpathsNodup
  · have hregsPerm : (((docs1.map (processDoc oracle (outPath ++ "/src"))).filterMap
        (fun r => r.reg))).Perm
        (((mid.map (processDoc oracle (outPath ++ "/src"))).filterMap
          (fun r => r.reg))) := (hperm.map _).filterMap _
    have hr1nd := (regs_keys_sublist oracle (outPath ++ "/src") docs1).nodup hfile
    have hrMidnd := (regs_keys_sublist oracle (outPath ++ "/src") mid).nodup hfileMid
    have hp1 : (manifestFold ((docs1.map (processDoc oracle (outPath ++ "/src"))).filterMap
        (fun r => r.reg)) []).Perm ((docs1.map (processDoc oracle
          (outPath ++ "/src"))).filterMap (fun r => r.reg)) := by
      have := manifestFold_perm ((docs1.map (processDoc oracle
        (outPath ++ "/src"))).filterMap (fun r => r.reg)) [] (by simpa using hr1nd)
      simpa using this
    have hpMid : (manifestFold ((mid.map (processDoc oracle (outPath ++ "/src"))).filterMap
        (fun r => r.reg)) []).Perm ((mid.map (processDoc oracle
          (outPath ++ "/src"))).filterMap (fun r => r.reg)) := by
      have := manifestFold_perm ((mid.map (processDoc oracle
        (outPath ++ "/src"))).filterMap (fun r => r.reg)) [] (by simpa using hrMidnd)
      simpa using this
    rw [generateDocs_manifest_eq, generateDocs_manifest_eq, ← hpt.2]
    exact List.eq_of_perm_of_sorted (hp1.trans (hregsPerm.trans hpMid.symm))
      (manifestFold_sorted _ _ (by simp)) (manifestFold_sorted _ _ (by simp))

/-- C3 witness: the amended determinism theorem applied to a concrete
two-document run and a reordering of it. -/
theorem c3_witness :
    sortByKey Prod.fst (generateDocs (fun _ => true) "out"
      [⟨"a", "d", some ⟨none, some [("p1", ⟨some .string, none, none⟩)]⟩⟩,
       ⟨"b", "d", some ⟨none, some [("p2", ⟨some .integer, none, none⟩)]⟩⟩]).files =
    sortByKey Prod.fst (generateDocs (fun _ => true) "out"
      [⟨"b", "d", some ⟨none, some [("p2", ⟨some .integer, none, none⟩)]⟩⟩,
       ⟨"a", "d", some ⟨none, some [("p1", ⟨some .string, none, none⟩)]⟩⟩]).files ∧
    (generateDocs (fun _ => true) "out"
      [⟨"a", "d", some ⟨none, some [("p1", ⟨some .string, none, none⟩)]⟩⟩,
       ⟨"b", "d", some ⟨none, some [("p2", ⟨some .integer, none, none⟩)]⟩⟩]).manifest =
    (generateDocs (fun _ => true) "out"
      [⟨"b", "d", some ⟨none, some [("p2", ⟨some .integer, none, none⟩)]⟩⟩,
       ⟨"a", "d", some ⟨none, some [("p1", ⟨some .string, none, none⟩)]⟩⟩]).manifest :=
  c3_determinism (fun _ => true) "out"
    [⟨"a", "d", some ⟨none, some [("p1", ⟨some .string, none, none⟩)]⟩⟩,
     ⟨"b", "d", some ⟨none, some [("p2", ⟨some .integer, none, none⟩)]⟩⟩]
    [⟨"b", "d", some ⟨none, some [("p2", ⟨some .integer, none, none⟩)]⟩⟩,
     ⟨"a", "d", some ⟨none, some [("p1", ⟨some .string, none, none⟩)]⟩⟩]
    ⟨[⟨"b", "d", some ⟨none, some [("p2", ⟨some .integer, none, none⟩)]⟩⟩,
      ⟨"a", "d", some ⟨none, some [("p1", ⟨some .string, none, none⟩)]⟩⟩],
      List.Perm.swap _ _ _, forall2_docEquiv_refl _⟩
    (by intro d hd; rcases List.mem_cons.mp hd with h | h
        · rw [h]; exact ⟨trivial, by decide⟩
        · rcases List.mem_cons.mp h with h2 | h2
          · rw [h2]; exact ⟨trivial, by decide⟩
          · simp at h2)
    (by decide) (by decide)
